import Mathlib

/-!
Verification of the easy-mcp-gateway sanitization core against its
natural-language specification.

The Go sources are shallowly embedded: Go strings are modelled as Lean
`String` (sequences of Unicode code points, matching Go's rune view used
throughout the sanitizer), fallible Go functions returning `(T, error)`
are modelled as `Except String T` or as a pair with an `Option String`
error component, and regular expressions compiled by the Go `regexp`
package are modelled as `CompiledRegex` values: the pattern source text
together with a decidable "has a (non-empty) match" function. The
built-in patterns of the injection, override and url scanners are
hand-compiled to executable matchers that implement exactly the regex
literals of the source.
-/

/-- Verdict of a scanner or of the whole pipeline, from `types.go`
(`VerdictPass`, `VerdictModify`, `VerdictBlock`). -/
inductive Verdict where
  | pass
  | modify
  | block
  deriving DecidableEq, Repr

/-- Outcome of a single scanner, from `types.go` (`ScanResult`). -/
structure ScanResult where
  verdict : Verdict
  content : String
  threats : List String
  scannerName : String
  deriving DecidableEq, Repr

/-- The `Scanner` interface of `scanner.go`: a name and a scan operation.
A Go `Scan` returns `(ScanResult, error)`; this is modelled as
`Except String ScanResult`. -/
structure Scanner where
  name : String
  scan : String → Except String ScanResult

/-- Aggregated result of a pipeline run, from `types.go`
(`PipelineResult`). -/
structure PipelineResult where
  finalVerdict : Verdict
  finalContent : String
  allThreats : List String
  scanResults : List ScanResult
  deriving DecidableEq, Repr

namespace Pipeline

/-- The loop body of `Pipeline.Process` (pipeline.go): `current` is the
threaded content, `result` the accumulator built so far.  On a scanner
error the partial result and the error are returned (mirroring
`return result, err`); on `VerdictBlock` the loop exits with the final
verdict and content set; on `VerdictModify` the verdict is upgraded and
the modified content threaded; on `VerdictPass` the content is kept. -/
def processGo (scanners : List Scanner) (current : String) (result : PipelineResult) :
    PipelineResult × Option String :=
  match scanners with
  | [] => ({ result with finalContent := current }, none)
  | s :: rest =>
    match s.scan current with
    | Except.error e => (result, some e)
    | Except.ok sr =>
      let acc : PipelineResult :=
        { result with
          scanResults := result.scanResults ++ [sr],
          allThreats := result.allThreats ++ sr.threats }
      match sr.verdict with
      | Verdict.block =>
        ({ acc with finalVerdict := Verdict.block, finalContent := sr.content }, none)
      | Verdict.modify =>
        processGo rest sr.content
          { acc with
            finalVerdict :=
              if acc.finalVerdict ≠ Verdict.block then Verdict.modify
              else acc.finalVerdict }
      | Verdict.pass => processGo rest current acc

/-- `Pipeline.Process` of pipeline.go: runs all scanners in order starting
from the zero-initialised result (`FinalVerdict = VerdictPass`). -/
def Process (scanners : List Scanner) (content : String) : PipelineResult × Option String :=
  processGo scanners content ⟨Verdict.pass, "", [], []⟩

/-- Verdict upgrade: the pipeline's final verdict combines the verdict
accumulated so far with the verdict of the remaining run (`pass` is the
neutral element). -/
def vmax (a b : Verdict) : Verdict :=
  match b with
  | Verdict.pass => a
  | v => v

/-- How a run of the tail of the pipeline combines with an accumulator:
lists append, the verdict upgrades, and the final content is the tail
run's except on error (where the accumulator's is kept). -/
def combineAcc (acc r : PipelineResult) (e : Option String) : PipelineResult :=
  { finalVerdict := vmax acc.finalVerdict r.finalVerdict,
    finalContent := match e with | some _ => acc.finalContent | none => r.finalContent,
    allThreats := acc.allThreats ++ r.allThreats,
    scanResults := acc.scanResults ++ r.scanResults }

end Pipeline

/-!
## Regex matchers

The Go sources use `regexp` (RE2).  A compiled regex is modelled as a
`CompiledRegex`: its source text and a function deciding whether the
regex has a (non-empty) match somewhere in a string — the only fact the
scanners consume via `FindString(content) != ""` / `MatchString` (none
of the patterns below can match the empty string).  The concrete
built-in patterns are hand-compiled to nondeterministic prefix matchers
over `List Char`, written with the combinators below; `(?i)` is
reflected by caseless literal matching (all literals are ASCII).
-/

/-- A nondeterministic prefix matcher: the possible remainders of the
input after consuming a match starting at its head. -/
abbrev Matcher := List Char → List (List Char)

/-- Match the empty pattern. -/
def mEps : Matcher := fun s => [s]

/-- Sequential composition of matchers. -/
def mSeq (a b : Matcher) : Matcher := fun s => (a s).flatMap b

/-- Sequence a list of matchers. -/
def mSeqs (ms : List Matcher) : Matcher := ms.foldr mSeq mEps

/-- Alternation over a list of matchers (regex `(a|b|c)`). -/
def mAlts (ms : List Matcher) : Matcher := fun s => ms.flatMap (fun m => m s)

/-- Optional matcher (regex `a?`). -/
def mOpt (a : Matcher) : Matcher := fun s => s :: a s

/-- Consume one character satisfying `p`. -/
def mCharIf (p : Char → Bool) : Matcher := fun s =>
  match s with
  | [] => []
  | c :: rest => if p c then [rest] else []

/-- ASCII-caseless character comparison, the effect of `(?i)` on the
ASCII literals of the built-in patterns. -/
def eqCaseless (a b : Char) : Bool := a.toLower = b.toLower

/-- Caseless literal over a character list. -/
def mLitChars : List Char → Matcher
  | [] => mEps
  | c :: cs => mSeq (mCharIf (fun x => eqCaseless x c)) (mLitChars cs)

/-- Caseless literal (regex `abc` under `(?i)`). -/
def mLit (w : String) : Matcher := mLitChars w.data

/-- RE2 whitespace class `\s = [\t\n\f\r ]`. -/
def goWS (c : Char) : Bool :=
  c = ' ' || c = '\t' || c = '\n' || c = '\x0c' || c = '\r'

/-- Remainders after consuming one or more whitespace characters. -/
def wsTails : List Char → List (List Char)
  | [] => []
  | c :: rest => if goWS c then rest :: wsTails rest else []

/-- Regex `\s+`. -/
def mWS1 : Matcher := wsTails

/-- Regex `\s*`. -/
def mWS0 : Matcher := fun s => s :: wsTails s

/-- Remainders after consuming one or more non-newline characters
(for regex `.`, which does not match a newline). -/
def dotTails : List Char → List (List Char)
  | [] => []
  | c :: rest => if c = '\n' then [] else rest :: dotTails rest

/-- Regex `.*`. -/
def mDotStar : Matcher := fun s => s :: dotTails s

/-- Whether the matcher matches a prefix of `s`. -/
def matchesHere (m : Matcher) (s : List Char) : Bool := !(m s).isEmpty

/-- Whether the matcher matches anywhere in `s` (the semantics of
`MatchString` / a non-empty `FindString`). -/
def matchesIn (m : Matcher) : List Char → Bool
  | [] => matchesHere m []
  | c :: rest => matchesHere m (c :: rest) || matchesIn m rest

/-- A compiled regular expression as the scanners consume one: the
pattern source (Go `re.String()`) and the "has a non-empty match in"
decision (Go `re.FindString(s) != ""`; no pattern of this development
matches the empty string). -/
structure CompiledRegex where
  src : String
  find : String → Bool

/-- Go `unicode.IsSpace`, as `strings.TrimSpace` uses it (on the ASCII
range relevant here, plus the common Latin-1 additions). -/
def goSpace (c : Char) : Bool :=
  c = ' ' || c = '\t' || c = '\n' || c = '\x0b' || c = '\x0c' || c = '\r' ||
    c.toNat = 0x85 || c.toNat = 0xA0

/-- `strings.TrimSpace`: drop whitespace from both ends. -/
def goTrimSpace (s : String) : String :=
  String.mk (((s.data.dropWhile goSpace).reverse.dropWhile goSpace).reverse)

/-- Go `%q` on the strings of this development: wrap in double quotes,
backslash-escaping embedded quotes and backslashes (the only characters
of our inputs needing an escape). -/
def goQuote (s : String) : String :=
  "\"" ++ String.mk (s.data.flatMap (fun c => if c = '"' || c = '\\' then ['\\', c] else [c])) ++ "\""

/-!
## Built-in injection patterns (injection.go)

Each entry of `builtInInjectionPatterns` below is the exact source text
of the Go pattern; each `bi*` matcher is its hand compilation.
-/

/-- Sources of `builtInInjectionPatterns` (injection.go). -/
def builtInInjectionPatterns : List String :=
  [ "ignore\\s+(all\\s+)?(previous|prior|above)\\s+(instructions?|prompts?|context)"
  , "disregard\\s+(all\\s+)?(previous|prior|above)"
  , "forget\\s+(everything|all|your)\\s+(instructions?|rules|guidelines|training)"
  , "forget\\s+everything"
  , "you\\s+are\\s+now\\s+(a|an|the)\\s+"
  , "new\\s+instructions?\\s*:"
  , "from\\s+now\\s+on,?\\s+you\\s+(are|will|must|should)"
  , "<\\|?im_start\\|?>"
  , "<\\|?system\\|?>"
  , "###\\s*(System|Instructions?|Rules)\\s*\\n"
  , "\\[INST\\]"
  , "\\[/INST\\]"
  , "<<SYS>>"
  , "<</SYS>>"
  , "IMPORTANT:\\s*ignore"
  , "CRITICAL:\\s*override" ]

/-- Matcher for `ignore\s+(all\s+)?(previous|prior|above)\s+(instructions?|prompts?|context)`. -/
def biIgnore : Matcher :=
  mSeqs [ mLit "ignore", mWS1, mOpt (mSeqs [mLit "all", mWS1])
        , mAlts [mLit "previous", mLit "prior", mLit "above"], mWS1
        , mAlts [ mSeqs [mLit "instruction", mOpt (mLit "s")]
                , mSeqs [mLit "prompt", mOpt (mLit "s")]
                , mLit "context" ] ]

/-- Matcher for `disregard\s+(all\s+)?(previous|prior|above)`. -/
def biDisregard : Matcher :=
  mSeqs [ mLit "disregard", mWS1, mOpt (mSeqs [mLit "all", mWS1])
        , mAlts [mLit "previous", mLit "prior", mLit "above"] ]

/-- Matcher for `forget\s+(everything|all|your)\s+(instructions?|rules|guidelines|training)`. -/
def biForgetLong : Matcher :=
  mSeqs [ mLit "forget", mWS1, mAlts [mLit "everything", mLit "all", mLit "your"], mWS1
        , mAlts [ mSeqs [mLit "instruction", mOpt (mLit "s")]
                , mLit "rules", mLit "guidelines", mLit "training" ] ]

/-- Matcher for `forget\s+everything`. -/
def biForget : Matcher := mSeqs [mLit "forget", mWS1, mLit "everything"]

/-- Matcher for `you\s+are\s+now\s+(a|an|the)\s+`. -/
def biYouAreNow : Matcher :=
  mSeqs [ mLit "you", mWS1, mLit "are", mWS1, mLit "now", mWS1
        , mAlts [mLit "a", mLit "an", mLit "the"], mWS1 ]

/-- Matcher for `new\s+instructions?\s*:`. -/
def biNewInstructions : Matcher :=
  mSeqs [mLit "new", mWS1, mLit "instruction", mOpt (mLit "s"), mWS0, mLit ":"]

/-- Matcher for `from\s+now\s+on,?\s+you\s+(are|will|must|should)`. -/
def biFromNowOn : Matcher :=
  mSeqs [ mLit "from", mWS1, mLit "now", mWS1, mLit "on", mOpt (mLit ","), mWS1
        , mLit "you", mWS1, mAlts [mLit "are", mLit "will", mLit "must", mLit "should"] ]

/-- Matcher for `<\|?im_start\|?>`. -/
def biImStart : Matcher :=
  mSeqs [mLit "<", mOpt (mLit "|"), mLit "im_start", mOpt (mLit "|"), mLit ">"]

/-- Matcher for `<\|?system\|?>`. -/
def biSystemTok : Matcher :=
  mSeqs [mLit "<", mOpt (mLit "|"), mLit "system", mOpt (mLit "|"), mLit ">"]

/-- Matcher for `###\s*(System|Instructions?|Rules)\s*\n`. -/
def biHeader : Matcher :=
  mSeqs [ mLit "###", mWS0
        , mAlts [mLit "System", mSeqs [mLit "Instruction", mOpt (mLit "s")], mLit "Rules"]
        , mWS0, mLit "\n" ]

/-- Matcher for `\[INST\]`. -/
def biInst : Matcher := mLit "[INST]"

/-- Matcher for `\[/INST\]`. -/
def biInstClose : Matcher := mLit "[/INST]"

/-- Matcher for `<<SYS>>`. -/
def biSys : Matcher := mLit "<<SYS>>"

/-- Matcher for `<</SYS>>`. -/
def biSysClose : Matcher := mLit "<</SYS>>"

/-- Matcher for `IMPORTANT:\s*ignore`. -/
def biImportant : Matcher := mSeqs [mLit "IMPORTANT:", mWS0, mLit "ignore"]

/-- Matcher for `CRITICAL:\s*override`. -/
def biCritical : Matcher := mSeqs [mLit "CRITICAL:", mWS0, mLit "override"]

/-- The hand compilations of `builtInInjectionPatterns`, in order. -/
def builtInMatchers : List Matcher :=
  [ biIgnore, biDisregard, biForgetLong, biForget, biYouAreNow, biNewInstructions
  , biFromNowOn, biImStart, biSystemTok, biHeader, biInst, biInstClose, biSys
  , biSysClose, biImportant, biCritical ]

/-- Case-insensitivity handling of `NewInjectionScanner`: prepend the
`(?i)` flag unless the pattern already carries it
(`strings.HasPrefix(p, "(?i)")`). -/
def ciFlagged (p : String) : String :=
  if "(?i)".data.isPrefixOf p.data then p else "(?i)" ++ p

/-- The compiled built-in pattern list: each source `(?i)`-flagged and
paired with its hand-compiled matcher. -/
def builtInCompiled : List CompiledRegex :=
  (builtInInjectionPatterns.zip builtInMatchers).map
    (fun pm => ⟨ciFlagged pm.1, fun s => matchesIn pm.2 s.data⟩)

/-!
## Override scanner patterns (override.go)

The Go sources compile these with `regexp.MustCompile`, the `(?i)` flag
written in the literal; `re.String()` therefore carries the flag.
-/

/-- Matcher for `(?i)you\s+are\s+(now\s+)?acting\s+as`. -/
def ovActingAs : Matcher :=
  mSeqs [ mLit "you", mWS1, mLit "are", mWS1, mOpt (mSeqs [mLit "now", mWS1])
        , mLit "acting", mWS1, mLit "as" ]

/-- Matcher for `(?i)(roleplay|role-play|role\s+play)\s+as`. -/
def ovRoleplay : Matcher :=
  mSeqs [ mAlts [mLit "roleplay", mLit "role-play", mSeqs [mLit "role", mWS1, mLit "play"]]
        , mWS1, mLit "as" ]

/-- Matcher for `(?i)your\s+(new\s+)?(role|persona|identity)\s+(is|:)`. -/
def ovYourRole : Matcher :=
  mSeqs [ mLit "your", mWS1, mOpt (mSeqs [mLit "new", mWS1])
        , mAlts [mLit "role", mLit "persona", mLit "identity"], mWS1
        , mAlts [mLit "is", mLit ":"] ]

/-- Matcher for `(?i)pretend\s+(to\s+be|you\s+are)`. -/
def ovPretend : Matcher :=
  mSeqs [ mLit "pretend", mWS1
        , mAlts [ mSeqs [mLit "to", mWS1, mLit "be"]
                , mSeqs [mLit "you", mWS1, mLit "are"] ] ]

/-- Matcher for `(?i)system\s*:\s*you\s+are`. -/
def ovSystem : Matcher :=
  mSeqs [mLit "system", mWS0, mLit ":", mWS0, mLit "you", mWS1, mLit "are"]

/-- Matcher for `(?i)switch\s+to\s+.*(mode|persona|role)`. -/
def ovSwitchTo : Matcher :=
  mSeqs [ mLit "switch", mWS1, mLit "to", mWS1, mDotStar
        , mAlts [mLit "mode", mLit "persona", mLit "role"] ]

/-- The compiled `overridePatterns` list of override.go, in order. -/
def overridePatterns : List CompiledRegex :=
  [ ⟨"(?i)you\\s+are\\s+(now\\s+)?acting\\s+as", fun s => matchesIn ovActingAs s.data⟩
  , ⟨"(?i)(roleplay|role-play|role\\s+play)\\s+as", fun s => matchesIn ovRoleplay s.data⟩
  , ⟨"(?i)your\\s+(new\\s+)?(role|persona|identity)\\s+(is|:)", fun s => matchesIn ovYourRole s.data⟩
  , ⟨"(?i)pretend\\s+(to\\s+be|you\\s+are)", fun s => matchesIn ovPretend s.data⟩
  , ⟨"(?i)system\\s*:\\s*you\\s+are", fun s => matchesIn ovSystem s.data⟩
  , ⟨"(?i)switch\\s+to\\s+.*(mode|persona|role)", fun s => matchesIn ovSwitchTo s.data⟩ ]

/-!
## URL scanner (url.go)

Three regexes are hand-compiled: `urlExtractor` (an http/https URL
extractor, case-sensitive), `dangerousSchemes`
(`(?i)(javascript\s*:|data\s*:\s*text/html)`) and `exfilPatterns`
(`(?i)[?&](secret|token|key|password|api_key|credential|auth|session_id|private_key)=`).
`FindString` / `FindAllString` semantics (leftmost match, greedy
repetition, first alternative) are implemented directly: for these
patterns greedy repetition is deterministic.
-/

/-- The negated character class of `urlExtractor`:
whitespace and the characters excluded by the class (codes 0x3C `<`,
0x3E `>`, 0x22 `"`, 0x7B, 0x7D (braces), 0x7C `|`, 0x5C backslash,
0x5E `^`, 0x60 backquote, 0x5B `[`, 0x5D `]`). -/
def urlStopChar (c : Char) : Bool :=
  goWS c || c.toNat = 0x3C || c.toNat = 0x3E || c.toNat = 0x22 || c.toNat = 0x7B ||
    c.toNat = 0x7D || c.toNat = 0x7C || c.toNat = 0x5C || c.toNat = 0x5E ||
    c.toNat = 0x60 || c.toNat = 0x5B || c.toNat = 0x5D

/-- Try to match `https?://[^\s<>"{}|\\^\x60\[\]]+` at the head of `s`:
returns the matched characters and the remainder. -/
def tryURLAt (s : List Char) : Option (List Char × List Char) :=
  match s with
  | 'h' :: 't' :: 't' :: 'p' :: rest =>
    let sPart : List Char × List Char :=
      match rest with
      | 's' :: r2 => (['s'], r2)
      | _ => ([], rest)
    (match sPart.2 with
     | ':' :: '/' :: '/' :: rest3 =>
       let run := rest3.takeWhile (fun c => !urlStopChar c)
       if run.isEmpty then none
       else some ('h' :: 't' :: 't' :: 'p' :: sPart.1 ++ ':' :: '/' :: '/' :: run,
                  rest3.drop run.length)
     | _ => none)
  | _ => none

/-- `FindAllString` of `urlExtractor`: successive leftmost non-overlapping
matches. `fuel` bounds the scan; it is called with more fuel than the
input's length, and every step consumes at least one character. -/
def extractFrom : Nat → List Char → List String
  | 0, _ => []
  | _, [] => []
  | Nat.succ fuel, c :: rest =>
    match tryURLAt (c :: rest) with
    | some m => String.mk m.1 :: extractFrom fuel m.2
    | none => extractFrom fuel rest

/-- All http/https URLs extracted from `content` (url.go
`urlExtractor.FindAllString(content, -1)`). -/
def extractURLs (content : String) : List String :=
  extractFrom (content.data.length + 1) content.data

/-- Caseless literal consumption keeping the original characters:
returns the consumed slice and the remainder. -/
def matchCaseless : List Char → List Char → Option (List Char × List Char)
  | [], s => some ([], s)
  | _ :: _, [] => none
  | w :: ws, c :: cs =>
    if eqCaseless c w then
      match matchCaseless ws cs with
      | some r => some (c :: r.1, r.2)
      | none => none
    else none

/-- Try the two alternatives of `dangerousSchemes` at the head of `s`,
returning the matched text (`javascript\s*:` first, then
`data\s*:\s*text/html`, as in the regex). -/
def dangerousAt (s : List Char) : Option (List Char) :=
  let alt1 : Option (List Char) :=
    match matchCaseless "javascript".data s with
    | some r1 =>
      let w1 := r1.2.takeWhile goWS
      (match r1.2.drop w1.length with
       | ':' :: _ => some (r1.1 ++ w1 ++ [':'])
       | _ => none)
    | none => none
  match alt1 with
  | some m => some m
  | none =>
    match matchCaseless "data".data s with
    | some r1 =>
      let w1 := r1.2.takeWhile goWS
      (match r1.2.drop w1.length with
       | ':' :: r2 =>
         let w2 := r2.takeWhile goWS
         (match matchCaseless "text/html".data (r2.drop w2.length) with
          | some r3 => some (r1.1 ++ w1 ++ ':' :: w2 ++ r3.1)
          | none => none)
       | _ => none)
    | none => none

/-- Leftmost match of `dangerousSchemes` in a character list. -/
def dangerousFindChars : List Char → Option String
  | [] => none
  | c :: rest =>
    match dangerousAt (c :: rest) with
    | some m => some (String.mk m)
    | none => dangerousFindChars rest

/-- `dangerousSchemes.FindString content` (empty result means no match;
the pattern cannot match the empty string). -/
def dangerousSchemesFind (content : String) : Option String :=
  dangerousFindChars content.data

/-- The query-string keys of `exfilPatterns`, in alternation order. -/
def exfilKeys : List String :=
  ["secret", "token", "key", "password", "api_key", "credential", "auth",
   "session_id", "private_key"]

/-- Whether `exfilPatterns` matches at the head of `s`: `[?&]`, then one
of the keys (caseless), then `=`. -/
def exfilAt (s : List Char) : Bool :=
  match s with
  | [] => false
  | c :: rest =>
    (c = '?' || c = '&') &&
      exfilKeys.any (fun k =>
        match matchCaseless k.data rest with
        | some r => (match r.2 with | '=' :: _ => true | _ => false)
        | none => false)

/-- Whether `exfilPatterns` matches anywhere in a character list. -/
def exfilIn : List Char → Bool
  | [] => false
  | c :: rest => exfilAt (c :: rest) || exfilIn rest

/-- `exfilPatterns.MatchString u`. -/
def exfilMatches (u : String) : Bool := exfilIn u.data

/-!
## The concrete scanners
-/

namespace UnicodeScanner

/-- `shouldRemove` of unicode.go: keep the common whitespace characters
newline, tab, carriage return and space; otherwise remove exactly the
characters of the Unicode general categories Cf, Co and Cc.  The
category membership test (Go `unicode.In(r, unicode.Cf, unicode.Co,
unicode.Cc)`, a table lookup in the Go standard library) is a
parameter. -/
def shouldRemove (inCfCoCc : Char → Bool) (r : Char) : Bool :=
  if r = '\n' || r = '\t' || r = '\r' || r = ' ' then false
  else inCfCoCc r

/-- `UnicodeScanner.Scan` of unicode.go.  NFKC normalization
(`norm.NFKC.String`, from golang.org/x/text) is a parameter.  The Go
loop that writes kept runes into a builder and counts removed ones is
expressed as a filter and a count over the normalized rune sequence. -/
def Scan (nfkc : String → String) (inCfCoCc : Char → Bool) (content : String) : ScanResult :=
  let normalized := nfkc content
  let cleaned := String.mk (normalized.data.filter (fun r => !shouldRemove inCfCoCc r))
  let removed := normalized.data.countP (fun r => shouldRemove inCfCoCc r)
  if removed = 0 && cleaned = content then
    ⟨Verdict.pass, content, [], "unicode"⟩
  else
    ⟨Verdict.modify, cleaned,
      if removed > 0 then ["invisible/control characters removed"] else [],
      "unicode"⟩

end UnicodeScanner

namespace LengthScanner

/-- `LengthScanner.Scan` of length.go.  `MaxChars` is a Go `int`, so it
is modelled as `Int`; the rune count is compared against it, and on
truncation the first `MaxChars` runes are kept and the marker appended.
A negative `MaxChars` reaching the truncation branch would panic in Go
(`runes[:s.MaxChars]` out of range): that case is the error. -/
def Scan (maxChars : Int) (content : String) : Except String ScanResult :=
  if (content.data.length : Int) ≤ maxChars then
    Except.ok ⟨Verdict.pass, content, [], "length"⟩
  else if maxChars < 0 then
    Except.error "runtime error: slice bounds out of range"
  else
    Except.ok ⟨Verdict.modify,
      String.mk (content.data.take maxChars.toNat) ++ "\n[truncated]",
      ["response exceeded character limit"], "length"⟩

end LengthScanner

namespace InjectionScanner

/-- `InjectionScanner.Scan` of injection.go: the first pattern with a
(non-empty) match blocks, naming the matched pattern source; otherwise
pass with the content unchanged. -/
def Scan (patterns : List CompiledRegex) (content : String) : ScanResult :=
  match patterns.find? (fun re => re.find content) with
  | some re =>
    ⟨Verdict.block, content,
      ["prompt injection detected: matched pattern " ++ goQuote re.src], "injection"⟩
  | none => ⟨Verdict.pass, content, [], "injection"⟩

end InjectionScanner

namespace OverrideScanner

/-- `OverrideScanner.Scan` of override.go. -/
def Scan (content : String) : ScanResult :=
  match overridePatterns.find? (fun re => re.find content) with
  | some re =>
    ⟨Verdict.block, content,
      ["system prompt override detected: matched " ++ goQuote re.src], "override"⟩
  | none => ⟨Verdict.pass, content, [], "override"⟩

end OverrideScanner

namespace URLScanner

/-- `URLScanner.Scan` of url.go: one threat if `dangerousSchemes` has a
match anywhere, plus one threat per extracted URL matched by
`exfilPatterns`; block iff any threat. -/
def Scan (content : String) : ScanResult :=
  let threats1 : List String :=
    match dangerousSchemesFind content with
    | some m => ["dangerous URI scheme detected: " ++ goQuote (goTrimSpace m)]
    | none => []
  let threats2 : List String :=
    ((extractURLs content).filter exfilMatches).map
      (fun u => "possible data exfiltration URL: " ++ goQuote u)
  let threats := threats1 ++ threats2
  if threats.length > 0 then ⟨Verdict.block, content, threats, "url"⟩
  else ⟨Verdict.pass, content, [], "url"⟩

end URLScanner

namespace BoundaryScanner

/-- `BoundaryScanner.Scan` of boundary.go: always modify, wrapping the
content in the external-tool-response envelope with the `%q`-quoted
source. -/
def Scan (source content : String) : ScanResult :=
  ⟨Verdict.modify,
    "<external_tool_response source=" ++ goQuote source ++ ">\n" ++ content ++
      "\n</external_tool_response>",
    [], "boundary"⟩

end BoundaryScanner

/-- The `UnicodeScanner` as a pipeline `Scanner` (its Go `Scan` never
returns an error). -/
def unicodeScanner (nfkc : String → String) (inCfCoCc : Char → Bool) : Scanner :=
  ⟨"unicode", fun c => Except.ok (UnicodeScanner.Scan nfkc inCfCoCc c)⟩

/-- The `LengthScanner` as a pipeline `Scanner`. -/
def lengthScanner (maxChars : Int) : Scanner :=
  ⟨"length", fun c => LengthScanner.Scan maxChars c⟩

/-- The `InjectionScanner` as a pipeline `Scanner`. -/
def injectionScanner (patterns : List CompiledRegex) : Scanner :=
  ⟨"injection", fun c => Except.ok (InjectionScanner.Scan patterns c)⟩

/-- The `OverrideScanner` as a pipeline `Scanner`. -/
def overrideScanner : Scanner :=
  ⟨"override", fun c => Except.ok (OverrideScanner.Scan c)⟩

/-- The `URLScanner` as a pipeline `Scanner`. -/
def urlScanner : Scanner :=
  ⟨"url", fun c => Except.ok (URLScanner.Scan c)⟩

/-- The `BoundaryScanner` as a pipeline `Scanner`. -/
def boundaryScanner (source : String) : Scanner :=
  ⟨"boundary", fun c => Except.ok (BoundaryScanner.Scan source c)⟩

/-!
## Injection scanner construction (injection.go `NewInjectionScanner`)

`regexp.Compile` is modelled as a parameter
`compile : String → Option (String → Bool)`: `none` is a compile error,
`some f` a compiled regex with match function `f`.
-/

/-- The `sources` slice of `NewInjectionScanner`: built-ins (unless
disabled) followed by the custom patterns, in that order. -/
def injectionSources (disableBuiltIn : Bool) (customPatterns : List String) : List String :=
  (if !disableBuiltIn then builtInInjectionPatterns else []) ++ customPatterns

/-- The compile loop of `NewInjectionScanner`: `(?i)`-flag each source
and compile it, stopping at the first error. -/
def compileAll (compile : String → Option (String → Bool)) :
    List String → Except String (List CompiledRegex)
  | [] => Except.ok []
  | p :: rest =>
    match compile (ciFlagged p) with
    | none =>
      Except.error ("compiling injection pattern " ++ goQuote (ciFlagged p) ++ ": invalid regex")
    | some f =>
      match compileAll compile rest with
      | Except.error e => Except.error e
      | Except.ok rs => Except.ok (⟨ciFlagged p, f⟩ :: rs)

/-- `NewInjectionScanner` of injection.go, returning the compiled
pattern list of the scanner it builds. -/
def NewInjectionScanner (compile : String → Option (String → Bool))
    (disableBuiltIn : Bool) (customPatterns : List String) :
    Except String (List CompiledRegex) :=
  compileAll compile (injectionSources disableBuiltIn customPatterns)

/-!
## Configuration (config.go)
-/

/-- `HTTPConfig` of config.go. -/
structure HTTPConfig where
  addr : String
  path : String
  deriving DecidableEq, Repr

/-- `UpstreamConfig` of config.go. -/
structure UpstreamConfig where
  transport : String
  http : HTTPConfig
  deriving DecidableEq, Repr

/-- `SanitizationConfig` of config.go: Go pointer fields (`*int`,
`*bool`) are optionals, a nil slice is the empty list. -/
structure SanitizationConfig where
  maxResponseChars : Option Int
  enablePromptInjectionDetection : Option Bool
  enableInvisibleTextRemoval : Option Bool
  enableURLValidation : Option Bool
  enableBoundaryInjection : Option Bool
  enableSystemOverrideDetection : Option Bool
  disableBuiltInPatterns : Option Bool
  customInjectionPatterns : List String
  deriving DecidableEq, Repr

/-- `DownstreamConfig` of config.go. -/
structure DownstreamConfig where
  name : String
  transport : String
  command : List String
  url : String
  sanitization : Option SanitizationConfig
  deriving DecidableEq, Repr

/-- `Config` of config.go. -/
structure Config where
  upstream : UpstreamConfig
  downstream : List DownstreamConfig
  sanitization : SanitizationConfig
  deriving DecidableEq, Repr

/-- `Merge` of config.go: per-field override of the global config;
the custom-pattern list replaces the global one only when non-empty. -/
def Merge (global : SanitizationConfig) (override : Option SanitizationConfig) :
    SanitizationConfig :=
  match override with
  | none => global
  | some o =>
    { maxResponseChars :=
        match o.maxResponseChars with
        | some v => some v
        | none => global.maxResponseChars,
      enablePromptInjectionDetection :=
        match o.enablePromptInjectionDetection with
        | some v => some v
        | none => global.enablePromptInjectionDetection,
      enableInvisibleTextRemoval :=
        match o.enableInvisibleTextRemoval with
        | some v => some v
        | none => global.enableInvisibleTextRemoval,
      enableURLValidation :=
        match o.enableURLValidation with
        | some v => some v
        | none => global.enableURLValidation,
      enableBoundaryInjection :=
        match o.enableBoundaryInjection with
        | some v => some v
        | none => global.enableBoundaryInjection,
      enableSystemOverrideDetection :=
        match o.enableSystemOverrideDetection with
        | some v => some v
        | none => global.enableSystemOverrideDetection,
      disableBuiltInPatterns :=
        match o.disableBuiltInPatterns with
        | some v => some v
        | none => global.disableBuiltInPatterns,
      customInjectionPatterns :=
        if o.customInjectionPatterns.length > 0 then o.customInjectionPatterns
        else global.customInjectionPatterns }

/-- The character class `[a-zA-Z0-9]`. -/
def isGoAlnum (c : Char) : Bool :=
  ('a' ≤ c && c ≤ 'z') || ('A' ≤ c && c ≤ 'Z') || ('0' ≤ c && c ≤ '9')

/-- `validName.MatchString` of config.go
(`^[a-zA-Z0-9][a-zA-Z0-9_-]*$`): non-empty, alphanumeric head, and a
tail of alphanumerics, underscores and hyphens. -/
def validName (s : String) : Bool :=
  match s.data with
  | [] => false
  | c :: cs => isGoAlnum c && cs.all (fun x => isGoAlnum x || x = '_' || x = '-')

/-- `strings.Contains(name, "__")`: two consecutive underscores. -/
def hasDoubleUnder : List Char → Bool
  | '_' :: '_' :: _ => true
  | _ :: rest => hasDoubleUnder rest
  | [] => false

/-- The per-downstream checks of `validate` (config.go), in source
order, with the accumulated set of already-seen names. -/
def validateDownstreams (seen : List String) : List DownstreamConfig → Option String
  | [] => none
  | ds :: rest =>
    if ds.name = "" then some "name is required"
    else if !validName ds.name then some ("name " ++ goQuote ds.name ++ " must match the pattern")
    else if hasDoubleUnder ds.name.data then
      some ("name " ++ goQuote ds.name ++ " must not contain the reserved separator")
    else if ds.name ∈ seen then some ("duplicate name " ++ goQuote ds.name)
    else if ds.transport ≠ "stdio" && ds.transport ≠ "http" then
      some ("transport must be stdio or http, got " ++ goQuote ds.transport)
    else if ds.transport = "stdio" && ds.command.isEmpty then
      some "command is required for stdio transport"
    else if ds.transport = "http" && ds.url = "" then
      some "url is required for http transport"
    else validateDownstreams (ds.name :: seen) rest

/-- The custom-pattern loop of `validate`: first invalid regex, if any.
`isValidRegex` models `regexp.Compile` succeeding. -/
def firstBadPattern (isValidRegex : String → Bool) : List String → Option String
  | [] => none
  | p :: rest =>
    if !isValidRegex p then some ("invalid regex " ++ goQuote p)
    else firstBadPattern isValidRegex rest

/-- The per-downstream custom-pattern loop of `validate`. -/
def validateDSPatterns (isValidRegex : String → Bool) : List DownstreamConfig → Option String
  | [] => none
  | ds :: rest =>
    match ds.sanitization with
    | none => validateDSPatterns isValidRegex rest
    | some s =>
      match firstBadPattern isValidRegex s.customInjectionPatterns with
      | some e => some e
      | none => validateDSPatterns isValidRegex rest

/-- `validate` of config.go, checks in source order: upstream transport,
non-empty downstream list, the per-downstream checks, the global custom
patterns, the per-downstream custom patterns. -/
def validate (isValidRegex : String → Bool) (cfg : Config) : Option String :=
  if cfg.upstream.transport ≠ "stdio" && cfg.upstream.transport ≠ "http" then
    some ("upstream transport must be stdio or http, got " ++ goQuote cfg.upstream.transport)
  else if cfg.downstream.isEmpty then some "at least one downstream server is required"
  else
    match validateDownstreams [] cfg.downstream with
    | some e => some e
    | none =>
      match firstBadPattern isValidRegex cfg.sanitization.customInjectionPatterns with
      | some e => some e
      | none => validateDSPatterns isValidRegex cfg.downstream

/-- `applyDefaults` of config.go. -/
def applyDefaults (cfg : Config) : Config :=
  { upstream :=
      { transport := if cfg.upstream.transport = "" then "stdio" else cfg.upstream.transport,
        http :=
          { addr := if cfg.upstream.http.addr = "" then ":8080" else cfg.upstream.http.addr,
            path := if cfg.upstream.http.path = "" then "/mcp" else cfg.upstream.http.path } },
    downstream := cfg.downstream,
    sanitization :=
      { maxResponseChars :=
          match cfg.sanitization.maxResponseChars with
          | none => some 16000
          | some v => some v,
        enablePromptInjectionDetection :=
          match cfg.sanitization.enablePromptInjectionDetection with
          | none => some true
          | some v => some v,
        enableInvisibleTextRemoval :=
          match cfg.sanitization.enableInvisibleTextRemoval with
          | none => some true
          | some v => some v,
        enableURLValidation :=
          match cfg.sanitization.enableURLValidation with
          | none => some true
          | some v => some v,
        enableBoundaryInjection :=
          match cfg.sanitization.enableBoundaryInjection with
          | none => some true
          | some v => some v,
        enableSystemOverrideDetection :=
          match cfg.sanitization.enableSystemOverrideDetection with
          | none => some true
          | some v => some v,
        disableBuiltInPatterns :=
          match cfg.sanitization.disableBuiltInPatterns with
          | none => some false
          | some v => some v,
        customInjectionPatterns := cfg.sanitization.customInjectionPatterns } }

/-- `Load` of config.go after the file has been read and parsed into
`cfg` (file reading and JSON decoding are I/O and are not modelled):
apply defaults, then validate. -/
def Load (isValidRegex : String → Bool) (cfg : Config) : Except String Config :=
  match validate isValidRegex (applyDefaults cfg) with
  | some e => Except.error ("validating config: " ++ e)
  | none => Except.ok (applyDefaults cfg)

/-!
## Gateway (registry.go): BuildPipeline and sanitizeResult
-/

/-- `deref` of registry.go: nil pointer reads as false. -/
def deref (b : Option Bool) : Bool :=
  match b with
  | none => false
  | some v => v

/-- `BuildPipeline` of registry.go.  Stage order: unicode, length,
injection, override, url, boundary; each added only when enabled
(length only for a present, positive `maxResponseChars`).  The NFKC
normalizer, the Cf/Co/Cc category test and the regex compiler of the
external libraries are parameters. -/
def BuildPipeline (nfkc : String → String) (inCfCoCc : Char → Bool)
    (compile : String → Option (String → Bool))
    (cfg : SanitizationConfig) (source : String) : Except String (List Scanner) :=
  let s1 : List Scanner :=
    if deref cfg.enableInvisibleTextRemoval then [unicodeScanner nfkc inCfCoCc] else []
  let s2 : List Scanner :=
    match cfg.maxResponseChars with
    | some m => if 0 < m then [lengthScanner m] else []
    | none => []
  match
    (if deref cfg.enablePromptInjectionDetection then
      (NewInjectionScanner compile (deref cfg.disableBuiltInPatterns)
        cfg.customInjectionPatterns).map (fun rs => [injectionScanner rs])
     else Except.ok []) with
  | Except.error e => Except.error ("injection scanner: " ++ e)
  | Except.ok s3 =>
    let s4 : List Scanner :=
      if deref cfg.enableSystemOverrideDetection then [overrideScanner] else []
    let s5 : List Scanner :=
      if deref cfg.enableURLValidation then [urlScanner] else []
    let s6 : List Scanner :=
      if deref cfg.enableBoundaryInjection then [boundaryScanner source] else []
    Except.ok (s1 ++ s2 ++ s3 ++ s4 ++ s5 ++ s6)

/-- A content item of an MCP `CallToolResult`: a text item (text plus
opaque annotations) or any non-text item (opaque payload). -/
inductive MCPContent where
  | text (text : String) (ann : Option String)
  | other (payload : String)
  deriving DecidableEq, Repr

/-- `mcp.CallToolResult`: content items and the error flag. -/
structure CallToolResult where
  content : List MCPContent
  isError : Bool
  deriving DecidableEq, Repr

/-- The block-reason computation of `sanitizeResult` (registry.go):
the threats joined with "; ", or the fixed text when none were
reported. -/
def blockReason (threats : List String) : String :=
  if threats.length > 0 then String.intercalate "; " threats
  else "blocked by sanitization"

/-- The item loop of `sanitizeResult` (registry.go): `done` holds the
already-processed items (Go mutates `result.Content[i]` in place),
`isErr0` the incoming result's error flag.  Non-text items pass
through; a text item is piped: error propagates, block short-circuits
into a fresh single-item error result, modify substitutes the final
content keeping the annotations, pass keeps the item. -/
def sanitizeLoop (pipe : List Scanner) (isErr0 : Bool) (done : List MCPContent) :
    List MCPContent → Except String CallToolResult
  | [] => Except.ok ⟨done, isErr0⟩
  | MCPContent.other p :: rest =>
    sanitizeLoop pipe isErr0 (done ++ [MCPContent.other p]) rest
  | MCPContent.text t ann :: rest =>
    match Pipeline.Process pipe t with
    | (_, some e) => Except.error e
    | (pr, none) =>
      match pr.finalVerdict with
      | Verdict.block =>
        Except.ok ⟨[MCPContent.text (blockReason pr.allThreats) none], true⟩
      | Verdict.modify =>
        sanitizeLoop pipe isErr0 (done ++ [MCPContent.text pr.finalContent ann]) rest
      | Verdict.pass =>
        sanitizeLoop pipe isErr0 (done ++ [MCPContent.text t ann]) rest

/-- `sanitizeResult` of registry.go. -/
def sanitizeResult (pipe : List Scanner) (result : CallToolResult) :
    Except String CallToolResult :=
  sanitizeLoop pipe result.isError [] result.content

/-!
## Concrete models of the external library functions

These close the parametric definitions for the concrete theorems.  They
are models of third-party code (golang.org/x/text and the Go standard
library), faithful on every input they are evaluated at in this file.
-/

/-- Model of `norm.NFKC.String`.  Every concrete input used in this
development consists of NFKC-invariant code points (ASCII and
U+200B), on which real NFKC normalization is the identity. -/
def nfkcModel (s : String) : String := s

/-- Model of `unicode.In(r, unicode.Cf, unicode.Co, unicode.Cc)`: the
full Cc range, the common Cf code points (soft hyphen, the Arabic
format characters, zero-width and directional marks U+200B–U+200F and
U+202A–U+202E, the invisible operators U+2060–U+2064 and
U+2066–U+206F, BOM, interlinear annotation marks) and the Co
private-use ranges. -/
def inCfCoCcModel (c : Char) : Bool :=
  let n := c.toNat
  (n < 0x20) || (0x7F ≤ n && n ≤ 0x9F) ||
    n = 0xAD || (0x600 ≤ n && n ≤ 0x605) || n = 0x61C || n = 0x6DD || n = 0x70F ||
    n = 0x8E2 || (0x200B ≤ n && n ≤ 0x200F) || (0x202A ≤ n && n ≤ 0x202E) ||
    (0x2060 ≤ n && n ≤ 0x2064) || (0x2066 ≤ n && n ≤ 0x206F) || n = 0xFEFF ||
    (0xFFF9 ≤ n && n ≤ 0xFFFB) ||
    (0xE000 ≤ n && n ≤ 0xF8FF) || (0xF0000 ≤ n && n ≤ 0xFFFFD) ||
    (0x100000 ≤ n && n ≤ 0x10FFFD)

/-- Lookup table behind `compileModel`: the `(?i)`-flagged built-in
pattern sources with their hand-compiled match functions. -/
def compileTable : List (String × (String → Bool)) :=
  (builtInInjectionPatterns.zip builtInMatchers).map
    (fun pm => (ciFlagged pm.1, fun s => matchesIn pm.2 s.data))

/-- Model of `regexp.Compile`, defined on the patterns this repository
compiles through `NewInjectionScanner`: the built-in set.  Unknown
text is treated as failing to compile. -/
def compileModel (p : String) : Option (String → Bool) :=
  (compileTable.find? (fun kv => kv.1 = p)).map Prod.snd

/-- The merged sanitization configuration of the clean-input theorems:
every detection stage enabled, the default character limit, boundary
injection disabled, no custom patterns. -/
def cleanCfg : SanitizationConfig :=
  { maxResponseChars := some 16000,
    enablePromptInjectionDetection := some true,
    enableInvisibleTextRemoval := some true,
    enableURLValidation := some true,
    enableBoundaryInjection := some false,
    enableSystemOverrideDetection := some true,
    disableBuiltInPatterns := some false,
    customInjectionPatterns := [] }

/-- The pipeline `BuildPipeline` constructs from `cleanCfg` with the
concrete library models. -/
def cleanScanners : List Scanner :=
  [ unicodeScanner nfkcModel inCfCoCcModel, lengthScanner 16000
  , injectionScanner builtInCompiled, overrideScanner, urlScanner ]

/-- Concrete data for the pipeline-block witness: the result of running
the one-stage url pipeline on a dangerous-scheme input. -/
def urlBlockThreat : String := "dangerous URI scheme detected: " ++ goQuote "javascript:"

/-- The pipeline result of `Pipeline.Process [urlScanner] "javascript:x"`. -/
def c1Result : PipelineResult :=
  ⟨Verdict.block, "javascript:x", [urlBlockThreat],
   [⟨Verdict.block, "javascript:x", [urlBlockThreat], "url"⟩]⟩

/-- A trivially succeeding regex-compiler model (used by witnesses): every
pattern compiles, to a matcher that never matches. -/
def compileAlways : String → Option (String → Bool) := fun _ => some (fun _ => false)

/-!
## Theorems

First the pipeline bookkeeping lemmas, then one theorem per claim (with
witnesses and counterexamples where called for).
-/

namespace Pipeline

theorem vmax_pass_left (b : Verdict) : vmax Verdict.pass b = b := by
  cases b <;> rfl

theorem processGo_acc (scanners : List Scanner) (current : String) (acc : PipelineResult)
    (h : acc.finalVerdict ≠ Verdict.block) :
    processGo scanners current acc =
      (combineAcc acc (Process scanners current).1 (Process scanners current).2,
       (Process scanners current).2) := by
  induction scanners generalizing current acc with
  | nil =>
    cases acc with
    | mk fv fc at_ srs =>
      simp [processGo, Process, combineAcc, vmax]
  | cons s rest ih =>
    cases hscan : s.scan current with
    | error e =>
      cases acc with
      | mk fv fc at_ srs =>
        simp [processGo, Process, combineAcc, hscan, vmax]
    | ok sr =>
      cases hv : sr.verdict with
      | block =>
        cases acc with
        | mk fv fc at_ srs =>
          simp [processGo, Process, combineAcc, hscan, hv, vmax]
      | modify =>
        have hne : acc.finalVerdict ≠ Verdict.block := h
        have step :
            processGo (s :: rest) current acc =
              processGo rest sr.content
                { acc with
                  scanResults := acc.scanResults ++ [sr],
                  allThreats := acc.allThreats ++ sr.threats,
                  finalVerdict := Verdict.modify } := by
          simp [processGo, hscan, hv, hne]
        have stepE :
            Process (s :: rest) current =
              processGo rest sr.content
                ⟨Verdict.modify, "", sr.threats, [sr]⟩ := by
          simp [Process, processGo, hscan, hv]
        rw [step, ih sr.content _ (by simp), stepE,
          ih sr.content ⟨Verdict.modify, "", sr.threats, [sr]⟩ (by simp)]
        cases acc with
        | mk fv fc at_ srs =>
          cases he : (Process rest sr.content).2 <;>
            cases hfv : (Process rest sr.content).1.finalVerdict <;>
              simp [combineAcc, vmax, he, hfv, List.append_assoc]
      | pass =>
        have step :
            processGo (s :: rest) current acc =
              processGo rest current
                { acc with
                  scanResults := acc.scanResults ++ [sr],
                  allThreats := acc.allThreats ++ sr.threats } := by
          simp [processGo, hscan, hv]
        have stepE :
            Process (s :: rest) current =
              processGo rest current
                ⟨Verdict.pass, "", sr.threats, [sr]⟩ := by
          simp [Process, processGo, hscan, hv]
        rw [step, ih current _ (by simpa using h), stepE,
          ih current ⟨Verdict.pass, "", sr.threats, [sr]⟩ (by simp)]
        cases acc with
        | mk fv fc at_ srs =>
          cases he : (Process rest current).2 <;>
            cases hfv : (Process rest current).1.finalVerdict <;>
              simp [combineAcc, vmax, he, hfv, List.append_assoc]

theorem Process_nil (content : String) :
    Process [] content = (⟨Verdict.pass, content, [], []⟩, none) := rfl

theorem Process_cons_error (s : Scanner) (rest : List Scanner) (content : String)
    (e : String) (h : s.scan content = Except.error e) :
    Process (s :: rest) content = (⟨Verdict.pass, "", [], []⟩, some e) := by
  simp [Process, processGo, h]

theorem Process_cons_block (s : Scanner) (rest : List Scanner) (content : String)
    (sr : ScanResult) (h : s.scan content = Except.ok sr) (hv : sr.verdict = Verdict.block) :
    Process (s :: rest) content = (⟨Verdict.block, sr.content, sr.threats, [sr]⟩, none) := by
  simp [Process, processGo, h, hv]

theorem Process_cons_modify (s : Scanner) (rest : List Scanner) (content : String)
    (sr : ScanResult) (h : s.scan content = Except.ok sr) (hv : sr.verdict = Verdict.modify) :
    Process (s :: rest) content =
      (combineAcc ⟨Verdict.modify, "", sr.threats, [sr]⟩
        (Process rest sr.content).1 (Process rest sr.content).2,
       (Process rest sr.content).2) := by
  have step :
      Process (s :: rest) content =
        processGo rest sr.content ⟨Verdict.modify, "", sr.threats, [sr]⟩ := by
    simp [Process, processGo, h, hv]
  rw [step, processGo_acc rest sr.content ⟨Verdict.modify, "", sr.threats, [sr]⟩ (by simp)]

theorem Process_cons_pass (s : Scanner) (rest : List Scanner) (content : String)
    (sr : ScanResult) (h : s.scan content = Except.ok sr) (hv : sr.verdict = Verdict.pass) :
    Process (s :: rest) content =
      (combineAcc ⟨Verdict.pass, "", sr.threats, [sr]⟩
        (Process rest content).1 (Process rest content).2,
       (Process rest content).2) := by
  have step :
      Process (s :: rest) content =
        processGo rest content ⟨Verdict.pass, "", sr.threats, [sr]⟩ := by
    simp [Process, processGo, h, hv]
  rw [step, processGo_acc rest content ⟨Verdict.pass, "", sr.threats, [sr]⟩ (by simp)]

/-- A pipeline every scanner of which passes on `content` with the
content unchanged and no threats returns pass with the content
unchanged. -/
theorem Process_all_pass (scanners : List Scanner) (content : String)
    (h : ∀ s ∈ scanners, ∃ nm, s.scan content = Except.ok ⟨Verdict.pass, content, [], nm⟩) :
    (Process scanners content).2 = none ∧
      (Process scanners content).1.finalVerdict = Verdict.pass ∧
      (Process scanners content).1.finalContent = content := by
  induction scanners with
  | nil => simp [Process_nil]
  | cons s rest ih =>
    obtain ⟨nm, hs⟩ := h s (by simp)
    have hrest := ih (fun x hx => h x (by simp [hx]))
    rw [Process_cons_pass s rest content ⟨Verdict.pass, content, [], nm⟩ hs rfl]
    simp [combineAcc, vmax_pass_left, hrest.1, hrest.2.1, hrest.2.2]

end Pipeline

/-- C1: if some stage of a pipeline run returns verdict block, then
`Pipeline.Process` returns `finalVerdict = block`, `finalContent` equal
to the blocking stage's result content, `allThreats` equal to the
in-order concatenation of the threats of the stages up to and including
the blocking one, and a stage-result list of length `j + 1` where `j`
is the blocking stage's index (only that last entry blocks); no stage
after the blocking one is executed (running only the first `j + 1`
scanners produces the same output). -/
theorem pipeline_block_short_circuit (scanners : List Scanner) (content : String)
    (res : PipelineResult)
    (hrun : Pipeline.Process scanners content = (res, none))
    (hblock : ∃ sr ∈ res.scanResults, sr.verdict = Verdict.block) :
    res.finalVerdict = Verdict.block ∧
    ∃ j, ∃ hj : j < res.scanResults.length,
      res.scanResults.length = j + 1 ∧
      j < scanners.length ∧
      (res.scanResults.get ⟨j, hj⟩).verdict = Verdict.block ∧
      res.finalContent = (res.scanResults.get ⟨j, hj⟩).content ∧
      (∀ i (hi : i < res.scanResults.length), i ≠ j →
        (res.scanResults.get ⟨i, hi⟩).verdict ≠ Verdict.block) ∧
      res.allThreats = (res.scanResults.map ScanResult.threats).flatten ∧
      Pipeline.Process (scanners.take (j + 1)) content = (res, none) := by
  induction scanners generalizing content res with
  | nil =>
    rw [Pipeline.Process_nil] at hrun
    have h1 : (⟨Verdict.pass, content, [], []⟩ : PipelineResult) = res :=
      congrArg Prod.fst hrun
    subst h1
    simp at hblock
  | cons s rest ih =>
    cases hscan : s.scan content with
    | error e =>
      rw [Pipeline.Process_cons_error s rest content e hscan] at hrun
      have h2 := congrArg Prod.snd hrun
      simp at h2
    | ok sr =>
      cases hv : sr.verdict with
      | block =>
        rw [Pipeline.Process_cons_block s rest content sr hscan hv] at hrun
        have h1 : (⟨Verdict.block, sr.content, sr.threats, [sr]⟩ : PipelineResult) = res :=
          congrArg Prod.fst hrun
        subst h1
        refine ⟨rfl, 0, by simp, rfl, by simp, hv, rfl, ?_, by simp, ?_⟩
        · intro i hi hne
          simp at hi
          omega
        · simp only [List.take_succ_cons, List.take_zero]
          exact Pipeline.Process_cons_block s [] content sr hscan hv
      | modify =>
        rw [Pipeline.Process_cons_modify s rest content sr hscan hv] at hrun
        have h2 : (Pipeline.Process rest sr.content).2 = none := congrArg Prod.snd hrun
        have hrest : Pipeline.Process rest sr.content =
            ((Pipeline.Process rest sr.content).1, none) := by rw [← h2]
        have h1 : Pipeline.combineAcc ⟨Verdict.modify, "", sr.threats, [sr]⟩
            (Pipeline.Process rest sr.content).1 (Pipeline.Process rest sr.content).2 = res :=
          congrArg Prod.fst hrun
        rw [h2] at h1
        set r := (Pipeline.Process rest sr.content).1 with hrdef
        subst h1
        simp only [Pipeline.combineAcc] at hblock ⊢
        simp only [List.singleton_append] at hblock ⊢
        have hblock2 : ∃ x ∈ r.scanResults, x.verdict = Verdict.block := by
          obtain ⟨x, hx, hxv⟩ := hblock
          rcases List.mem_cons.mp hx with h | h
          · rw [h] at hxv; rw [hv] at hxv; exact absurd hxv (by simp)
          · exact ⟨x, h, hxv⟩
        obtain ⟨hfv, j1, hj1, hlen1, hjlt1, hget1, hfc1, hforall1, hall1, htake1⟩ :=
          ih sr.content r hrest hblock2
        refine ⟨by simp [Pipeline.vmax, hfv], j1 + 1, by simp; omega, by simp [hlen1],
          by simp; omega, ?_, ?_, ?_, ?_, ?_⟩
        · exact hget1
        · simpa [hfv, Pipeline.vmax] using hfc1
        · intro i hi hne
          match i with
          | 0 => simp [hv]
          | Nat.succ i2 =>
            have hi2 : i2 < r.scanResults.length := by simp at hi; omega
            exact hforall1 i2 hi2 (by omega)
        · simp [hall1]
        · simp only [List.take_succ_cons]
          rw [Pipeline.Process_cons_modify s (rest.take (j1 + 1)) content sr hscan hv,
            htake1]
          simp [Pipeline.combineAcc]
      | pass =>
        rw [Pipeline.Process_cons_pass s rest content sr hscan hv] at hrun
        have h2 : (Pipeline.Process rest content).2 = none := congrArg Prod.snd hrun
        have hrest : Pipeline.Process rest content =
            ((Pipeline.Process rest content).1, none) := by rw [← h2]
        have h1 : Pipeline.combineAcc ⟨Verdict.pass, "", sr.threats, [sr]⟩
            (Pipeline.Process rest content).1 (Pipeline.Process rest content).2 = res :=
          congrArg Prod.fst hrun
        rw [h2] at h1
        set r := (Pipeline.Process rest content).1 with hrdef
        subst h1
        simp only [Pipeline.combineAcc] at hblock ⊢
        simp only [List.singleton_append] at hblock ⊢
        have hblock2 : ∃ x ∈ r.scanResults, x.verdict = Verdict.block := by
          obtain ⟨x, hx, hxv⟩ := hblock
          rcases List.mem_cons.mp hx with h | h
          · rw [h] at hxv; rw [hv] at hxv; exact absurd hxv (by simp)
          · exact ⟨x, h, hxv⟩
        obtain ⟨hfv, j1, hj1, hlen1, hjlt1, hget1, hfc1, hforall1, hall1, htake1⟩ :=
          ih content r hrest hblock2
        refine ⟨by simp [Pipeline.vmax_pass_left, hfv], j1 + 1, by simp; omega, by simp [hlen1],
          by simp; omega, ?_, ?_, ?_, ?_, ?_⟩
        · exact hget1
        · simpa [hfv, Pipeline.vmax] using hfc1
        · intro i hi hne
          match i with
          | 0 => simp [hv]
          | Nat.succ i2 =>
            have hi2 : i2 < r.scanResults.length := by simp at hi; omega
            exact hforall1 i2 hi2 (by omega)
        · simp [hall1]
        · simp only [List.take_succ_cons]
          rw [Pipeline.Process_cons_pass s (rest.take (j1 + 1)) content sr hscan hv,
            htake1]
          simp [Pipeline.combineAcc]

/-- Witness for the C1 theorem: a one-stage pipeline whose url scanner
blocks on `"javascript:x"`. -/
theorem pipeline_block_short_circuit_witness :
    (Pipeline.Process [urlScanner] "javascript:x").1.finalVerdict = Verdict.block := by
  have e : Pipeline.Process [urlScanner] "javascript:x" = (c1Result, none) := by decide
  rw [e]
  exact (pipeline_block_short_circuit [urlScanner] "javascript:x" c1Result e
    (by decide)).1

/-- C4: the Merge law of config.go.  `Merge g none = g`; every field
present (some) in the override appears in the merged config with the
override's value while absent (none) fields take the global value; the
custom-pattern list is replaced by the override's exactly when the
override's list is non-empty (never concatenated). -/
theorem merge_override_semantics (g o : SanitizationConfig) :
    Merge g none = g ∧
    (Merge g (some o)).maxResponseChars =
      (if o.maxResponseChars.isSome then o.maxResponseChars else g.maxResponseChars) ∧
    (Merge g (some o)).enablePromptInjectionDetection =
      (if o.enablePromptInjectionDetection.isSome then o.enablePromptInjectionDetection
       else g.enablePromptInjectionDetection) ∧
    (Merge g (some o)).enableInvisibleTextRemoval =
      (if o.enableInvisibleTextRemoval.isSome then o.enableInvisibleTextRemoval
       else g.enableInvisibleTextRemoval) ∧
    (Merge g (some o)).enableURLValidation =
      (if o.enableURLValidation.isSome then o.enableURLValidation
       else g.enableURLValidation) ∧
    (Merge g (some o)).enableBoundaryInjection =
      (if o.enableBoundaryInjection.isSome then o.enableBoundaryInjection
       else g.enableBoundaryInjection) ∧
    (Merge g (some o)).enableSystemOverrideDetection =
      (if o.enableSystemOverrideDetection.isSome then o.enableSystemOverrideDetection
       else g.enableSystemOverrideDetection) ∧
    (Merge g (some o)).disableBuiltInPatterns =
      (if o.disableBuiltInPatterns.isSome then o.disableBuiltInPatterns
       else g.disableBuiltInPatterns) ∧
    (Merge g (some o)).customInjectionPatterns =
      (if o.customInjectionPatterns = [] then g.customInjectionPatterns
       else o.customInjectionPatterns) := by
  refine ⟨rfl, ?_, ?_, ?_, ?_, ?_, ?_, ?_, ?_⟩
  · cases h : o.maxResponseChars <;> simp [Merge, h]
  · cases h : o.enablePromptInjectionDetection <;> simp [Merge, h]
  · cases h : o.enableInvisibleTextRemoval <;> simp [Merge, h]
  · cases h : o.enableURLValidation <;> simp [Merge, h]
  · cases h : o.enableBoundaryInjection <;> simp [Merge, h]
  · cases h : o.enableSystemOverrideDetection <;> simp [Merge, h]
  · cases h : o.disableBuiltInPatterns <;> simp [Merge, h]
  · cases h : o.customInjectionPatterns <;> simp [Merge, h]

/-- C5: the length scanner (with the positive limit BuildPipeline
requires) passes inputs of at most `maxChars` code points unchanged,
and otherwise modifies to exactly the first `maxChars` code points
followed by a newline and the literal marker "[truncated]", with the
single threat "response exceeded character limit". -/
theorem length_scan_spec (maxChars : Int) (content : String) (hpos : 0 < maxChars) :
    ((content.data.length : Int) ≤ maxChars →
        LengthScanner.Scan maxChars content = Except.ok ⟨Verdict.pass, content, [], "length"⟩) ∧
    (maxChars < (content.data.length : Int) →
        LengthScanner.Scan maxChars content =
          Except.ok ⟨Verdict.modify,
            String.mk (content.data.take maxChars.toNat) ++ "\n[truncated]",
            ["response exceeded character limit"], "length"⟩) := by
  constructor
  · intro h
    unfold LengthScanner.Scan
    rw [if_pos h]
  · intro h
    have h1 : ¬ ((content.data.length : Int) ≤ maxChars) := by omega
    have h2 : ¬ (maxChars < 0) := by omega
    unfold LengthScanner.Scan
    rw [if_neg h1, if_neg h2]

/-- Witness for the C5 theorem at `maxChars = 3`, input "abcdef". -/
theorem length_scan_spec_witness :
    LengthScanner.Scan 3 "abcdef" =
      Except.ok ⟨Verdict.modify, "abc\n[truncated]",
        ["response exceeded character limit"], "length"⟩ := by
  have h := (length_scan_spec 3 "abcdef" (by decide)).2 (by decide)
  rw [h]
  rfl

/-- Bridge: `shouldRemove` equals the claim-side predicate "in Cf, Co or
Cc and not one of space, tab, CR, LF". -/
theorem shouldRemove_eq_claim (f : Char → Bool) (r : Char) :
    UnicodeScanner.shouldRemove f r =
      (f r && !(r = ' ' || r = '\t' || r = '\r' || r = '\n')) := by
  by_cases h1 : r = '\n' <;> by_cases h2 : r = '\t' <;> by_cases h3 : r = '\r' <;>
    by_cases h4 : r = ' ' <;> simp [UnicodeScanner.shouldRemove, h1, h2, h3, h4]

/-- C6: the unicode scanner's output is the NFKC normalization of the
input with every Cf/Co/Cc code point removed except space, tab, CR and
LF; the verdict is modify iff some code point was removed or
normalization changed the string (otherwise pass with unchanged
content); the threat "invisible/control characters removed" is emitted
exactly when removal occurred.  `nfkc` and the category test are the
(parametric) external library functions. -/
theorem unicode_scan_characterization (nfkc : String → String) (inCfCoCc : Char → Bool)
    (content : String) :
    (UnicodeScanner.Scan nfkc inCfCoCc content).content =
      String.mk ((nfkc content).data.filter
        (fun r => !(inCfCoCc r && !(r = ' ' || r = '\t' || r = '\r' || r = '\n')))) ∧
    ((UnicodeScanner.Scan nfkc inCfCoCc content).verdict = Verdict.modify ↔
      ((∃ r ∈ (nfkc content).data,
          (inCfCoCc r && !(r = ' ' || r = '\t' || r = '\r' || r = '\n')) = true) ∨
        nfkc content ≠ content)) ∧
    ((UnicodeScanner.Scan nfkc inCfCoCc content).verdict = Verdict.pass ∨
      (UnicodeScanner.Scan nfkc inCfCoCc content).verdict = Verdict.modify) ∧
    ((UnicodeScanner.Scan nfkc inCfCoCc content).verdict = Verdict.pass →
      (UnicodeScanner.Scan nfkc inCfCoCc content).content = content) ∧
    ((UnicodeScanner.Scan nfkc inCfCoCc content).threats =
      if (nfkc content).data.any
          (fun r => inCfCoCc r && !(r = ' ' || r = '\t' || r = '\r' || r = '\n'))
      then ["invisible/control characters removed"] else []) := by
  have hfil : (nfkc content).data.filter
        (fun r => !(inCfCoCc r && !(r = ' ' || r = '\t' || r = '\r' || r = '\n'))) =
      (nfkc content).data.filter (fun r => !UnicodeScanner.shouldRemove inCfCoCc r) :=
    List.filter_congr (fun x _ => by rw [shouldRemove_eq_claim])
  have hany : (nfkc content).data.any
        (fun r => inCfCoCc r && !(r = ' ' || r = '\t' || r = '\r' || r = '\n')) =
      (nfkc content).data.any (fun r => UnicodeScanner.shouldRemove inCfCoCc r) :=
    congrArg ((nfkc content).data.any)
      (funext (fun x => (shouldRemove_eq_claim inCfCoCc x).symm))
  have hex : (∃ r ∈ (nfkc content).data,
        (inCfCoCc r && !(r = ' ' || r = '\t' || r = '\r' || r = '\n')) = true) ↔
      ∃ r ∈ (nfkc content).data, UnicodeScanner.shouldRemove inCfCoCc r = true := by
    constructor
    · rintro ⟨r, hr, hp⟩
      exact ⟨r, hr, by rw [shouldRemove_eq_claim]; exact hp⟩
    · rintro ⟨r, hr, hp⟩
      exact ⟨r, hr, by rw [← shouldRemove_eq_claim]; exact hp⟩
  unfold UnicodeScanner.Scan
  by_cases hc : ((nfkc content).data.countP
      (fun r => UnicodeScanner.shouldRemove inCfCoCc r) = 0 ∧
    String.mk ((nfkc content).data.filter (fun r => !UnicodeScanner.shouldRemove inCfCoCc r))
      = content)
  · have hzero := hc.1
    have hall : ∀ r ∈ (nfkc content).data, ¬ (UnicodeScanner.shouldRemove inCfCoCc r = true) :=
      List.countP_eq_zero.mp hzero
    have hfull : (nfkc content).data.filter (fun r => !UnicodeScanner.shouldRemove inCfCoCc r) =
        (nfkc content).data := by
      apply List.filter_eq_self.mpr
      intro a ha
      simp [hall a ha]
    have hnorm : nfkc content = content := by
      have := hc.2
      rw [hfull] at this
      exact this
    have hcond : ((nfkc content).data.countP
          (fun r => UnicodeScanner.shouldRemove inCfCoCc r) = 0 &&
        (String.mk ((nfkc content).data.filter
          (fun r => !UnicodeScanner.shouldRemove inCfCoCc r)) = content : Bool)) = true := by
      simp [hc.1, hc.2]
    rw [if_pos hcond]
    refine ⟨?_, ?_, Or.inl rfl, fun _ => rfl, ?_⟩
    · show content = _
      rw [hfil, hfull, hnorm]
    · show (Verdict.pass = Verdict.modify ↔ _)
      constructor
      · intro hpm
        exact absurd hpm (by simp)
      · rintro (hex2 | hne)
        · obtain ⟨r, hr, hp⟩ := hex.mp hex2
          exact absurd hp (by simp [hall r hr])
        · exact absurd hnorm hne
    · show ([] : List String) = _
      have : (nfkc content).data.any (fun r => UnicodeScanner.shouldRemove inCfCoCc r) = false := by
        simp only [List.any_eq_false]
        intro r hr
        simp [hall r hr]
      rw [hany, this]
      simp
  · have hcond : ¬ (((nfkc content).data.countP
          (fun r => UnicodeScanner.shouldRemove inCfCoCc r) = 0 &&
        (String.mk ((nfkc content).data.filter
          (fun r => !UnicodeScanner.shouldRemove inCfCoCc r)) = content : Bool)) = true) := by
      simpa using hc
    rw [if_neg hcond]
    refine ⟨by rw [hfil], ?_, Or.inr rfl, by simp, ?_⟩
    · show (Verdict.modify = Verdict.modify ↔ _)
      constructor
      · intro _
        rcases Decidable.em ((nfkc content).data.countP
            (fun r => UnicodeScanner.shouldRemove inCfCoCc r) = 0) with hz | hnz
        · right
          intro hnorm
          apply hc
          refine ⟨hz, ?_⟩
          have hall : ∀ r ∈ (nfkc content).data,
              ¬ (UnicodeScanner.shouldRemove inCfCoCc r = true) :=
            List.countP_eq_zero.mp hz
          have hfull : (nfkc content).data.filter
              (fun r => !UnicodeScanner.shouldRemove inCfCoCc r) = (nfkc content).data := by
            apply List.filter_eq_self.mpr
            intro a ha
            simp [hall a ha]
          rw [hfull, hnorm]
        · left
          apply hex.mpr
          have := List.countP_pos_iff.mp (Nat.pos_of_ne_zero hnz)
          obtain ⟨r, hr, hp⟩ := this
          exact ⟨r, hr, hp⟩
      · intro _
        rfl
    · show (if (nfkc content).data.countP
            (fun r => UnicodeScanner.shouldRemove inCfCoCc r) > 0 then
          ["invisible/control characters removed"] else []) = _
      rw [hany]
      rcases Nat.eq_zero_or_pos ((nfkc content).data.countP
          (fun r => UnicodeScanner.shouldRemove inCfCoCc r)) with hz | hpz
      · have hne : (nfkc content).data.any
            (fun r => UnicodeScanner.shouldRemove inCfCoCc r) = false := by
          simp only [List.any_eq_false]
          intro r hr
          have hall := List.countP_eq_zero.mp hz
          simp [hall r hr]
        rw [hne]
        simp [hz]
      · have hye : (nfkc content).data.any
            (fun r => UnicodeScanner.shouldRemove inCfCoCc r) = true := by
          simp only [List.any_eq_true]
          exact List.countP_pos_iff.mp hpz
        rw [hye]
        simp [hpz]


/-- The compile loop of `NewInjectionScanner` preserves the source list:
on success the compiled sources are the `(?i)`-flagged inputs in
order. -/
theorem compileAll_ok_srcs (compile : String → Option (String → Bool))
    (ps : List String) (rs : List CompiledRegex)
    (h : compileAll compile ps = Except.ok rs) :
    rs.map CompiledRegex.src = ps.map ciFlagged := by
  induction ps generalizing rs with
  | nil =>
    simp [compileAll] at h
    subst h
    rfl
  | cons p rest ih =>
    unfold compileAll at h
    cases hcp : compile (ciFlagged p) with
    | none => rw [hcp] at h; exact absurd h (by simp)
    | some f =>
      rw [hcp] at h
      cases hrest : compileAll compile rest with
      | error e => rw [hrest] at h; exact absurd h (by simp)
      | ok rs2 =>
        rw [hrest] at h
        have h2 : (⟨ciFlagged p, f⟩ : CompiledRegex) :: rs2 = rs := by
          have := h
          simp at this
          exact this
        rw [← h2]
        simp [ih rs2 hrest]

/-- C2 (amended): the injection scanner's compiled pattern list is the
built-in patterns (unless disabled) followed by — not preceded by — the
custom patterns, each `(?i)`-flagged; custom patterns are included for
every value of `disableBuiltIn`. -/
theorem injection_scanner_pattern_order (compile : String → Option (String → Bool))
    (disableBuiltIn : Bool) (customPatterns : List String) (rs : List CompiledRegex)
    (h : NewInjectionScanner compile disableBuiltIn customPatterns = Except.ok rs) :
    rs.map CompiledRegex.src =
      ((if disableBuiltIn then [] else builtInInjectionPatterns) ++ customPatterns).map
        ciFlagged ∧
    ∀ p ∈ customPatterns, ciFlagged p ∈ rs.map CompiledRegex.src := by
  have hsrc := compileAll_ok_srcs compile _ rs h
  have hsources : injectionSources disableBuiltIn customPatterns =
      (if disableBuiltIn then [] else builtInInjectionPatterns) ++ customPatterns := by
    cases disableBuiltIn <;> rfl
  constructor
  · rw [hsrc, hsources]
  · intro p hp
    rw [hsrc, hsources]
    exact List.mem_map_of_mem ciFlagged (List.mem_append_right _ hp)

/-- C2 counterexample: with `disableBuiltIn = false` and custom list
`["banana"]`, the scanner's source list is the built-ins followed by
"banana" — it is not the claimed custom-patterns-first order. -/
theorem injection_scanner_pattern_order_counterexample :
    injectionSources false ["banana"] = builtInInjectionPatterns ++ ["banana"] ∧
    ¬ (injectionSources false ["banana"] = ["banana"] ++ builtInInjectionPatterns) ∧
    ¬ ((injectionSources false ["banana"]).map ciFlagged =
        ["banana"].map ciFlagged ++ builtInInjectionPatterns.map ciFlagged) := by
  refine ⟨rfl, by decide, by decide⟩

/-- Witness for the C2 amended theorem at a concrete construction. -/
theorem injection_scanner_pattern_order_witness :
    NewInjectionScanner compileAlways false ["banana"] =
      Except.ok ((builtInInjectionPatterns ++ ["banana"]).map
        (fun p => (⟨ciFlagged p, fun _ => false⟩ : CompiledRegex))) ∧
    "(?i)banana" ∈ (((builtInInjectionPatterns ++ ["banana"]).map
        (fun p => (⟨ciFlagged p, fun _ => false⟩ : CompiledRegex))).map CompiledRegex.src) := by
  have h : NewInjectionScanner compileAlways false ["banana"] =
      Except.ok ((builtInInjectionPatterns ++ ["banana"]).map
        (fun p => (⟨ciFlagged p, fun _ => false⟩ : CompiledRegex))) := rfl
  refine ⟨h, ?_⟩
  have h2 := (injection_scanner_pattern_order compileAlways false ["banana"] _ h).2
  have h3 := h2 "banana" (by simp)
  exact h3

/-- C7: the url scanner blocks exactly when the dangerous-scheme regex
(`javascript:` or `data:text/html`, case-insensitive,
whitespace-tolerant) matches anywhere in the content or an extracted
http(s) URL contains one of the exfiltration query-string keys; the
blocking result carries one threat per detection (at most one for the
dangerous-scheme regex — its first match — and one per matching
extracted URL); otherwise it passes with unchanged content and no
threats.  The content field is the input in every case. -/
theorem url_scan_characterization (content : String) :
    (URLScanner.Scan content).content = content ∧
    ((URLScanner.Scan content).verdict = Verdict.block ↔
      ((dangerousSchemesFind content).isSome = true ∨
        ∃ u ∈ extractURLs content, exfilMatches u = true)) ∧
    ((URLScanner.Scan content).verdict = Verdict.block ∨
      (URLScanner.Scan content).verdict = Verdict.pass) ∧
    (URLScanner.Scan content).threats.length =
      ((if (dangerousSchemesFind content).isSome then 1 else 0) +
        ((extractURLs content).filter exfilMatches).length) ∧
    ((URLScanner.Scan content).verdict = Verdict.pass →
      (URLScanner.Scan content).threats = []) := by
  unfold URLScanner.Scan
  cases hd : dangerousSchemesFind content with
  | none =>
    cases hf : (extractURLs content).filter exfilMatches with
    | nil =>
      have hnone : ∀ u ∈ extractURLs content, ¬ (exfilMatches u = true) := by
        intro u hu
        have := List.filter_eq_nil_iff.mp hf u hu
        simpa using this
      simp only [hf, List.map_nil, List.length_nil]
      refine ⟨rfl, ?_, Or.inr rfl, by simp, fun _ => rfl⟩
      constructor
      · intro hblk
        exact absurd hblk (by simp)
      · rintro (hsome | ⟨u, hu, hx⟩)
        · simp at hsome
        · exact absurd hx (hnone u hu)
    | cons u0 us =>
      have hmem : u0 ∈ (extractURLs content).filter exfilMatches := by
        rw [hf]; exact List.mem_cons_self u0 us
      have hx := List.mem_filter.mp hmem
      simp only [hf]
      rw [if_pos (by simp)]
      refine ⟨rfl, ?_, Or.inl rfl, by simp, ?_⟩
      · constructor
        · intro _
          exact Or.inr ⟨u0, hx.1, hx.2⟩
        · intro _
          rfl
      · intro hp
        exact absurd hp (by simp)
  | some m =>
    rw [if_pos (by simp)]
    refine ⟨rfl, ?_, Or.inl rfl, by simp [hd]; omega, ?_⟩
    · constructor
      · intro _
        exact Or.inl (by simp [hd])
      · intro _
        rfl
    · intro hp
      exact absurd hp (by simp)

/-- Decomposition of a successful `BuildPipeline`: the scanner list is
the concatenation of the six optional stages in the source's order. -/
theorem BuildPipeline_ok_decomp (nfkc : String → String) (inCfCoCc : Char → Bool)
    (compile : String → Option (String → Bool)) (cfg : SanitizationConfig)
    (source : String) (ss : List Scanner)
    (h : BuildPipeline nfkc inCfCoCc compile cfg source = Except.ok ss) :
    ∃ inj : List Scanner,
      ((deref cfg.enablePromptInjectionDetection = false ∧ inj = []) ∨
        (deref cfg.enablePromptInjectionDetection = true ∧
          ∃ rs, NewInjectionScanner compile (deref cfg.disableBuiltInPatterns)
              cfg.customInjectionPatterns = Except.ok rs ∧
            inj = [injectionScanner rs])) ∧
      ss = (if deref cfg.enableInvisibleTextRemoval then [unicodeScanner nfkc inCfCoCc] else [])
        ++ (match cfg.maxResponseChars with
            | some m => if 0 < m then [lengthScanner m] else []
            | none => [])
        ++ inj
        ++ (if deref cfg.enableSystemOverrideDetection then [overrideScanner] else [])
        ++ (if deref cfg.enableURLValidation then [urlScanner] else [])
        ++ (if deref cfg.enableBoundaryInjection then [boundaryScanner source] else []) := by
  unfold BuildPipeline at h
  cases hpi : deref cfg.enablePromptInjectionDetection with
  | false =>
    rw [hpi] at h
    simp only [Bool.false_eq_true, if_false] at h
    refine ⟨[], Or.inl ⟨rfl, rfl⟩, ?_⟩
    have h2 := Except.ok.inj h
    rw [← h2]
  | true =>
    rw [hpi] at h
    simp only [if_true] at h
    cases hni : NewInjectionScanner compile (deref cfg.disableBuiltInPatterns)
        cfg.customInjectionPatterns with
    | error e =>
      rw [hni] at h
      exact absurd h (by simp [Except.map])
    | ok rs =>
      rw [hni] at h
      simp only [Except.map] at h
      refine ⟨[injectionScanner rs], Or.inr ⟨rfl, rs, rfl, rfl⟩, ?_⟩
      have h2 := Except.ok.inj h
      rw [← h2]

/-- C10: the three detector scanners (injection, override, url) return
a verdict in pass/block — never modify — and always return the input
content unchanged; consequently, in every pipeline `BuildPipeline`
constructs, a stage named injection, override or url never transforms
content (all transformation comes from the unicode, length and boundary
stages). -/
theorem detectors_never_modify :
    (∀ (patterns : List CompiledRegex) (content : String),
      ((InjectionScanner.Scan patterns content).verdict = Verdict.pass ∨
        (InjectionScanner.Scan patterns content).verdict = Verdict.block) ∧
      (InjectionScanner.Scan patterns content).content = content) ∧
    (∀ content : String,
      ((OverrideScanner.Scan content).verdict = Verdict.pass ∨
        (OverrideScanner.Scan content).verdict = Verdict.block) ∧
      (OverrideScanner.Scan content).content = content) ∧
    (∀ content : String,
      ((URLScanner.Scan content).verdict = Verdict.pass ∨
        (URLScanner.Scan content).verdict = Verdict.block) ∧
      (URLScanner.Scan content).content = content) ∧
    (∀ (nfkc : String → String) (inCfCoCc : Char → Bool)
        (compile : String → Option (String → Bool))
        (cfg : SanitizationConfig) (source : String) (ss : List Scanner),
      BuildPipeline nfkc inCfCoCc compile cfg source = Except.ok ss →
        ∀ s ∈ ss, (s.name = "injection" ∨ s.name = "override" ∨ s.name = "url") →
          ∀ c r, s.scan c = Except.ok r →
            (r.verdict = Verdict.pass ∨ r.verdict = Verdict.block) ∧ r.content = c) := by
  have hinj : ∀ (patterns : List CompiledRegex) (content : String),
      ((InjectionScanner.Scan patterns content).verdict = Verdict.pass ∨
        (InjectionScanner.Scan patterns content).verdict = Verdict.block) ∧
      (InjectionScanner.Scan patterns content).content = content := by
    intro patterns content
    unfold InjectionScanner.Scan
    cases hf : patterns.find? (fun re => re.find content) <;> simp
  have hov : ∀ content : String,
      ((OverrideScanner.Scan content).verdict = Verdict.pass ∨
        (OverrideScanner.Scan content).verdict = Verdict.block) ∧
      (OverrideScanner.Scan content).content = content := by
    intro content
    unfold OverrideScanner.Scan
    cases hf : overridePatterns.find? (fun re => re.find content) <;> simp
  have hurl : ∀ content : String,
      ((URLScanner.Scan content).verdict = Verdict.pass ∨
        (URLScanner.Scan content).verdict = Verdict.block) ∧
      (URLScanner.Scan content).content = content := by
    intro content
    have h := url_scan_characterization content
    exact ⟨h.2.2.1.symm, h.1⟩
  refine ⟨hinj, hov, hurl, ?_⟩
  intro nfkc inCfCoCc compile cfg source ss hbuild s hs hname c r hscan
  obtain ⟨inj, hinjcase, hss⟩ :=
    BuildPipeline_ok_decomp nfkc inCfCoCc compile cfg source ss hbuild
  subst hss
  simp only [List.mem_append] at hs
  rcases hs with ((((h1 | h2) | h3) | h4) | h5) | h6
  · exfalso
    split at h1 <;> simp at h1
    subst h1
    rcases hname with hn | hn | hn <;> simp [unicodeScanner] at hn
  · exfalso
    split at h2
    · split at h2 <;> simp at h2
      subst h2
      rcases hname with hn | hn | hn <;> simp [lengthScanner] at hn
    · simp at h2
  · rcases hinjcase with ⟨-, hempty⟩ | ⟨-, rs2, -, hinjeq⟩
    · rw [hempty] at h3
      simp at h3
    · rw [hinjeq] at h3
      simp only [List.mem_singleton] at h3
      subst h3
      have h4 := Except.ok.inj hscan
      rw [← h4]
      exact hinj rs2 c
  · split at h4 <;> simp at h4
    subst h4
    have h5 := Except.ok.inj hscan
    rw [← h5]
    exact hov c
  · split at h5 <;> simp at h5
    subst h5
    have h6 := Except.ok.inj hscan
    rw [← h6]
    exact hurl c
  · exfalso
    split at h6 <;> simp at h6
    subst h6
    rcases hname with hn | hn | hn <;> simp [boundaryScanner] at hn

/-- C3 (amended): content that matches no injection, override or URL
pattern, is within the configured length limit, AND is unchanged by
unicode sanitization (NFKC-invariant with no removable invisible or
control code points) passes a boundary-disabled pipeline unchanged with
verdict pass.  The unicode-clean condition is the amendment the
counterexample forces. -/
theorem pipeline_clean_input_pass (nfkc : String → String) (inCfCoCc : Char → Bool)
    (compile : String → Option (String → Bool)) (cfg : SanitizationConfig)
    (source : String) (ss : List Scanner) (content : String)
    (hbuild : BuildPipeline nfkc inCfCoCc compile cfg source = Except.ok ss)
    (hbound : deref cfg.enableBoundaryInjection = false)
    (hnorm : nfkc content = content)
    (hclean : ∀ r ∈ content.data, UnicodeScanner.shouldRemove inCfCoCc r = false)
    (hlen : ∀ m, cfg.maxResponseChars = some m → (content.data.length : Int) ≤ m)
    (hinjpat : ∀ rs, NewInjectionScanner compile (deref cfg.disableBuiltInPatterns)
        cfg.customInjectionPatterns = Except.ok rs → ∀ re ∈ rs, re.find content = false)
    (hover : ∀ re ∈ overridePatterns, re.find content = false)
    (hdang : dangerousSchemesFind content = none)
    (hexfil : ∀ u ∈ extractURLs content, exfilMatches u = false) :
    (Pipeline.Process ss content).2 = none ∧
      (Pipeline.Process ss content).1.finalVerdict = Verdict.pass ∧
      (Pipeline.Process ss content).1.finalContent = content := by
  obtain ⟨inj, hinjcase, hss⟩ :=
    BuildPipeline_ok_decomp nfkc inCfCoCc compile cfg source ss hbuild
  have huni : (unicodeScanner nfkc inCfCoCc).scan content =
      Except.ok ⟨Verdict.pass, content, [], "unicode"⟩ := by
    show Except.ok (UnicodeScanner.Scan nfkc inCfCoCc content) = _
    unfold UnicodeScanner.Scan
    have hcount : (nfkc content).data.countP
        (fun r => UnicodeScanner.shouldRemove inCfCoCc r) = 0 := by
      rw [hnorm]
      apply List.countP_eq_zero.mpr
      intro a ha
      simp [hclean a ha]
    have hfull : String.mk ((nfkc content).data.filter
        (fun r => !UnicodeScanner.shouldRemove inCfCoCc r)) = content := by
      rw [hnorm]
      have : content.data.filter (fun r => !UnicodeScanner.shouldRemove inCfCoCc r) =
          content.data := by
        apply List.filter_eq_self.mpr
        intro a ha
        simp [hclean a ha]
      rw [this]
    rw [if_pos (by simp [hcount, hfull])]
  have hlenok : ∀ m, cfg.maxResponseChars = some m → 0 < m →
      (lengthScanner m).scan content = Except.ok ⟨Verdict.pass, content, [], "length"⟩ := by
    intro m hm hmp
    show LengthScanner.Scan m content = _
    unfold LengthScanner.Scan
    rw [if_pos (hlen m hm)]
  have hinjok : ∀ rs, NewInjectionScanner compile (deref cfg.disableBuiltInPatterns)
      cfg.customInjectionPatterns = Except.ok rs →
      (injectionScanner rs).scan content = Except.ok ⟨Verdict.pass, content, [], "injection"⟩ := by
    intro rs hrs
    show Except.ok (InjectionScanner.Scan rs content) = _
    unfold InjectionScanner.Scan
    have : rs.find? (fun re => re.find content) = none := by
      apply List.find?_eq_none.mpr
      intro x hx
      simp [hinjpat rs hrs x hx]
    rw [this]
  have hovok : overrideScanner.scan content =
      Except.ok ⟨Verdict.pass, content, [], "override"⟩ := by
    show Except.ok (OverrideScanner.Scan content) = _
    unfold OverrideScanner.Scan
    have : overridePatterns.find? (fun re => re.find content) = none := by
      apply List.find?_eq_none.mpr
      intro x hx
      simp [hover x hx]
    rw [this]
  have hurlok : urlScanner.scan content =
      Except.ok ⟨Verdict.pass, content, [], "url"⟩ := by
    show Except.ok (URLScanner.Scan content) = _
    unfold URLScanner.Scan
    have hfil : (extractURLs content).filter exfilMatches = [] := by
      apply List.filter_eq_nil_iff.mpr
      intro u hu
      simp [hexfil u hu]
    rw [hdang, hfil]
    simp
  apply Pipeline.Process_all_pass
  intro s hs
  rw [hss] at hs
  rw [hbound] at hs
  simp only [Bool.false_eq_true, if_false, List.append_nil, List.mem_append] at hs
  rcases hs with (((h1 | h2) | h3) | h4) | h5
  · split at h1 <;> simp at h1
    subst h1
    exact ⟨"unicode", huni⟩
  · split at h2
    next m heq =>
      split at h2
      next hmp =>
        simp at h2
        subst h2
        exact ⟨"length", hlenok m heq hmp⟩
      next => simp at h2
    next => simp at h2
  · rcases hinjcase with ⟨-, hempty⟩ | ⟨-, rs2, hrs2, hinjeq⟩
    · rw [hempty] at h3
      simp at h3
    · rw [hinjeq] at h3
      simp only [List.mem_singleton] at h3
      subst h3
      exact ⟨"injection", hinjok rs2 hrs2⟩
  · split at h4 <;> simp at h4
    subst h4
    exact ⟨"override", hovok⟩
  · split at h5 <;> simp at h5
    subst h5
    exact ⟨"url", hurlok⟩

/-- Witness for the C3 amended theorem on the concrete clean pipeline
and input "hello world". -/
theorem pipeline_clean_input_pass_witness :
    (Pipeline.Process cleanScanners "hello world").2 = none ∧
      (Pipeline.Process cleanScanners "hello world").1.finalVerdict = Verdict.pass ∧
      (Pipeline.Process cleanScanners "hello world").1.finalContent = "hello world" := by
  apply pipeline_clean_input_pass nfkcModel inCfCoCcModel compileModel cleanCfg "srv"
    cleanScanners "hello world" rfl rfl rfl
  · intro r hr
    revert r
    decide
  · intro m hm
    have h16 : m = 16000 := by
      have : cleanCfg.maxResponseChars = some 16000 := rfl
      rw [this] at hm
      exact (Option.some.inj hm).symm
    rw [h16]
    decide
  · intro rs hrs
    have hb : NewInjectionScanner compileModel (deref cleanCfg.disableBuiltInPatterns)
        cleanCfg.customInjectionPatterns = Except.ok builtInCompiled := rfl
    rw [hb] at hrs
    have : builtInCompiled = rs := Except.ok.inj hrs
    rw [← this]
    decide
  · decide
  · decide
  · decide

/-- C3 counterexample: the input "a\u200Bb" (a zero-width space, a Cf
code point, between ASCII letters) matches no injection, override or
URL pattern and is far within the length limit, yet the
boundary-disabled pipeline returns verdict modify with content "ab" —
not pass with unchanged content as the claim states. -/
theorem pipeline_clean_input_pass_counterexample :
    BuildPipeline nfkcModel inCfCoCcModel compileModel cleanCfg "srv" =
      Except.ok cleanScanners ∧
    deref cleanCfg.enableBoundaryInjection = false ∧
    (∀ re ∈ builtInCompiled, re.find "a\u200Bb" = false) ∧
    (∀ re ∈ overridePatterns, re.find "a\u200Bb" = false) ∧
    dangerousSchemesFind "a\u200Bb" = none ∧
    extractURLs "a\u200Bb" = [] ∧
    (("a\u200Bb".data.length : Int) ≤ 16000) ∧
    (Pipeline.Process cleanScanners "a\u200Bb").2 = none ∧
    (Pipeline.Process cleanScanners "a\u200Bb").1.finalVerdict = Verdict.modify ∧
    (Pipeline.Process cleanScanners "a\u200Bb").1.finalContent = "ab" ∧
    ¬ ((Pipeline.Process cleanScanners "a\u200Bb").1.finalVerdict = Verdict.pass ∧
        (Pipeline.Process cleanScanners "a\u200Bb").1.finalContent = "a\u200Bb") := by
  refine ⟨rfl, rfl, by decide, by decide, by decide, by decide, by decide, by decide,
    by decide, by decide, by decide⟩

/-- The item loop of `sanitizeResult`: when the text item at index `j`
blocks and every earlier item is non-text or piped without error or
block, the loop returns the fresh single-text error result, whatever
has been accumulated so far. -/
theorem sanitizeLoop_block (pipe : List Scanner) (isErr0 : Bool) (t : String)
    (ann : Option String)
    (hproc : (Pipeline.Process pipe t).2 = none)
    (hblk : (Pipeline.Process pipe t).1.finalVerdict = Verdict.block) :
    ∀ (items : List MCPContent) (j : Nat) (hj : j < items.length),
      items.get ⟨j, hj⟩ = MCPContent.text t ann →
      (∀ i (hi : i < items.length), i < j → ∀ u a, items.get ⟨i, hi⟩ = MCPContent.text u a →
        (Pipeline.Process pipe u).2 = none ∧
          (Pipeline.Process pipe u).1.finalVerdict ≠ Verdict.block) →
      ∀ done : List MCPContent,
        sanitizeLoop pipe isErr0 done items =
          Except.ok ⟨[MCPContent.text
            (blockReason (Pipeline.Process pipe t).1.allThreats) none], true⟩ ∧
        sanitizeLoop pipe isErr0 done (items.take (j + 1)) =
          Except.ok ⟨[MCPContent.text
            (blockReason (Pipeline.Process pipe t).1.allThreats) none], true⟩ := by
  have hP : Pipeline.Process pipe t = ((Pipeline.Process pipe t).1, none) := by
    rw [← hproc]
  intro items
  induction items with
  | nil =>
    intro j hj
    exact absurd hj (by simp)
  | cons x rest ih =>
    intro j hj hitem hbefore done
    cases j with
    | zero =>
      have hx : x = MCPContent.text t ann := hitem
      subst hx
      constructor
      · show sanitizeLoop pipe isErr0 done (MCPContent.text t ann :: rest) = _
        unfold sanitizeLoop
        rw [hP]
        simp only [hblk]
      · show sanitizeLoop pipe isErr0 done
            ((MCPContent.text t ann :: rest).take 1) = _
        simp only [List.take_succ_cons, List.take_zero]
        unfold sanitizeLoop
        rw [hP]
        simp only [hblk]
    | succ j2 =>
      have hj2 : j2 < rest.length := by simpa using hj
      have hitem2 : rest.get ⟨j2, hj2⟩ = MCPContent.text t ann := hitem
      have hbefore2 : ∀ i (hi : i < rest.length), i < j2 → ∀ u a,
          rest.get ⟨i, hi⟩ = MCPContent.text u a →
          (Pipeline.Process pipe u).2 = none ∧
            (Pipeline.Process pipe u).1.finalVerdict ≠ Verdict.block := by
        intro i hi hlt u a hget
        exact hbefore (i + 1) (by simpa using hi) (by omega) u a hget
      cases x with
      | other p =>
        have step := ih j2 hj2 hitem2 hbefore2 (done ++ [MCPContent.other p])
        constructor
        · show sanitizeLoop pipe isErr0 done (MCPContent.other p :: rest) = _
          unfold sanitizeLoop
          exact step.1
        · show sanitizeLoop pipe isErr0 done
              ((MCPContent.other p :: rest).take (j2 + 2)) = _
          simp only [List.take_succ_cons]
          unfold sanitizeLoop
          exact step.2
      | text u a =>
        obtain ⟨hu2, hunb⟩ := hbefore 0 (by simp) (by omega) u a rfl
        have hPu : Pipeline.Process pipe u = ((Pipeline.Process pipe u).1, none) := by
          rw [← hu2]
        cases hv : (Pipeline.Process pipe u).1.finalVerdict with
        | block => exact absurd hv hunb
        | modify =>
          have step := ih j2 hj2 hitem2 hbefore2
            (done ++ [MCPContent.text (Pipeline.Process pipe u).1.finalContent a])
          constructor
          · show sanitizeLoop pipe isErr0 done (MCPContent.text u a :: rest) = _
            unfold sanitizeLoop
            rw [hPu]
            simp only [hv]
            exact step.1
          · show sanitizeLoop pipe isErr0 done
                ((MCPContent.text u a :: rest).take (j2 + 2)) = _
            simp only [List.take_succ_cons]
            unfold sanitizeLoop
            rw [hPu]
            simp only [hv]
            exact step.2
        | pass =>
          have step := ih j2 hj2 hitem2 hbefore2 (done ++ [MCPContent.text u a])
          constructor
          · show sanitizeLoop pipe isErr0 done (MCPContent.text u a :: rest) = _
            unfold sanitizeLoop
            rw [hPu]
            simp only [hv]
            exact step.1
          · show sanitizeLoop pipe isErr0 done
                ((MCPContent.text u a :: rest).take (j2 + 2)) = _
            simp only [List.take_succ_cons]
            unfold sanitizeLoop
            rw [hPu]
            simp only [hv]
            exact step.2

/-- C8: if the pipeline blocks on a text content item (index `j`, while
every earlier item is non-text or sanitized without a block), the proxy
result handler returns — without a call-level error — a fresh result
holding a single text item whose text is the joined threat descriptions
(or "blocked by sanitization" when none were reported) with the error
flag set; items after the blocking one are never consulted (processing
only the first `j + 1` items yields the same output). -/
theorem sanitize_result_block_short_circuit (pipe : List Scanner) (res : CallToolResult)
    (j : Nat) (hj : j < res.content.length) (t : String) (ann : Option String)
    (hitem : res.content.get ⟨j, hj⟩ = MCPContent.text t ann)
    (hproc : (Pipeline.Process pipe t).2 = none)
    (hblk : (Pipeline.Process pipe t).1.finalVerdict = Verdict.block)
    (hbefore : ∀ i (hi : i < res.content.length), i < j → ∀ u a,
        res.content.get ⟨i, hi⟩ = MCPContent.text u a →
        (Pipeline.Process pipe u).2 = none ∧
          (Pipeline.Process pipe u).1.finalVerdict ≠ Verdict.block) :
    sanitizeResult pipe res =
      Except.ok ⟨[MCPContent.text
        (blockReason (Pipeline.Process pipe t).1.allThreats) none], true⟩ ∧
    sanitizeResult pipe ⟨res.content.take (j + 1), res.isError⟩ = sanitizeResult pipe res := by
  have h := sanitizeLoop_block pipe res.isError t ann hproc hblk res.content j hj hitem
    hbefore []
  refine ⟨h.1, ?_⟩
  show sanitizeLoop pipe res.isError [] (res.content.take (j + 1)) =
    sanitizeLoop pipe res.isError [] res.content
  rw [h.2, h.1]

/-- Witness for the C8 theorem: a two-item result whose first text item
blocks under the url pipeline. -/
theorem sanitize_result_block_short_circuit_witness :
    sanitizeResult [urlScanner]
        ⟨[MCPContent.text "javascript:x" none, MCPContent.text "after" none], false⟩ =
      Except.ok ⟨[MCPContent.text urlBlockThreat none], true⟩ ∧
    sanitizeResult [urlScanner]
        ⟨[MCPContent.text "javascript:x" none], false⟩ =
      sanitizeResult [urlScanner]
        ⟨[MCPContent.text "javascript:x" none, MCPContent.text "after" none], false⟩ := by
  have h := sanitize_result_block_short_circuit [urlScanner]
    ⟨[MCPContent.text "javascript:x" none, MCPContent.text "after" none], false⟩
    0 (by decide) "javascript:x" none rfl (by decide) (by decide)
    (by intro i hi hlt u a hget; omega)
  constructor
  · rw [h.1]
    have : blockReason (Pipeline.Process [urlScanner] "javascript:x").1.allThreats =
        urlBlockThreat := by decide
    rw [this]
  · exact h.2

/-- A name matching the valid-name pattern is non-empty. -/
theorem validName_ne_empty (s : String) (h : validName s = true) : s ≠ "" := by
  intro he
  rw [he] at h
  exact absurd h (by decide)

/-- The per-downstream validation loop succeeds iff every entry has a
pattern-valid name without the reserved separator, a known transport
with its required connection datum, and no name repeats (nor collides
with the already-seen set). -/
theorem validateDownstreams_none_iff (l : List DownstreamConfig) :
    ∀ seen : List String,
      (validateDownstreams seen l = none ↔
        ((∀ ds ∈ l, validName ds.name = true ∧ hasDoubleUnder ds.name.data = false ∧
            (ds.transport = "stdio" ∨ ds.transport = "http") ∧
            (ds.transport = "stdio" → ds.command ≠ []) ∧
            (ds.transport = "http" → ds.url ≠ "")) ∧
          (l.map DownstreamConfig.name).Nodup ∧
          ∀ n ∈ l.map DownstreamConfig.name, n ∉ seen)) := by
  induction l with
  | nil =>
    intro seen
    simp [validateDownstreams]
  | cons ds rest ih =>
    intro seen
    unfold validateDownstreams
    by_cases h1 : ds.name = ""
    · simp only [h1, if_pos rfl]
      constructor
      · intro h
        exact absurd h (by simp)
      · rintro ⟨hall, -, -⟩
        have := (hall ds (by simp)).1
        rw [h1] at this
        exact absurd this (by decide)
    · rw [if_neg h1]
      by_cases h2 : validName ds.name = true
      · rw [if_neg (by simp [h2])]
        by_cases h3 : hasDoubleUnder ds.name.data = true
        · rw [if_pos (by simp [h3])]
          constructor
          · intro h
            exact absurd h (by simp)
          · rintro ⟨hall, -, -⟩
            have := (hall ds (by simp)).2.1
            rw [h3] at this
            exact absurd this (by simp)
        · rw [if_neg (by simp [h3])]
          by_cases h4 : ds.name ∈ seen
          · rw [if_pos h4]
            constructor
            · intro h
              exact absurd h (by simp)
            · rintro ⟨-, -, hseen⟩
              exact absurd (hseen ds.name (by simp)) (by simp [h4])
          · rw [if_neg h4]
            by_cases h5 : ds.transport = "stdio" ∨ ds.transport = "http"
            · rw [if_neg (by simp; tauto)]
              by_cases h6 : ds.transport = "stdio" ∧ ds.command = []
              · rw [if_pos (by simp [h6.1, h6.2])]
                constructor
                · intro h
                  exact absurd h (by simp)
                · rintro ⟨hall, -, -⟩
                  exact absurd h6.2 ((hall ds (by simp)).2.2.2.1 h6.1)
              · rw [if_neg (by simpa using (fun ha hb => h6 ⟨ha, by simpa using hb⟩))]
                by_cases h7 : ds.transport = "http" ∧ ds.url = ""
                · rw [if_pos (by simp [h7.1, h7.2])]
                  constructor
                  · intro h
                    exact absurd h (by simp)
                  · rintro ⟨hall, -, -⟩
                    exact absurd h7.2 ((hall ds (by simp)).2.2.2.2 h7.1)
                · rw [if_neg (by simpa using (fun ha hb => h7 ⟨ha, hb⟩))]
                  rw [ih (ds.name :: seen)]
                  constructor
                  · rintro ⟨hall, hnodup, hseen⟩
                    refine ⟨?_, ?_, ?_⟩
                    · intro x hx
                      rcases List.mem_cons.mp hx with hx | hx
                      · subst hx
                        refine ⟨h2, by simpa using h3, h5, ?_, ?_⟩
                        · intro hs hc
                          exact h6 ⟨hs, hc⟩
                        · intro hh hu
                          exact h7 ⟨hh, hu⟩
                      · exact hall x hx
                    · simp only [List.map_cons, List.nodup_cons]
                      refine ⟨?_, hnodup⟩
                      intro hmem
                      have := hseen ds.name hmem
                      simp at this
                    · simp only [List.map_cons, List.mem_cons]
                      rintro n (rfl | hn)
                      · exact h4
                      · intro hns
                        have := hseen n hn
                        simp at this
                        exact this.2 hns
                  · rintro ⟨hall, hnodup, hseen⟩
                    simp only [List.map_cons, List.nodup_cons] at hnodup
                    simp only [List.map_cons, List.mem_cons] at hseen
                    refine ⟨?_, hnodup.2, ?_⟩
                    · intro x hx
                      exact hall x (by simp [hx])
                    · intro n hn
                      intro hcon
                      rcases List.mem_cons.mp hcon with heq | hns
                      · subst heq
                        exact hnodup.1 hn
                      · exact hseen n (Or.inr hn) hns
            · rw [if_pos (by simp at h5 ⊢; tauto)]
              constructor
              · intro h
                exact absurd h (by simp)
              · rintro ⟨hall, -, -⟩
                exact absurd ((hall ds (by simp)).2.2.1) h5
      · have h2f : validName ds.name = false := by
          revert h2
          cases validName ds.name <;> simp
        rw [if_pos (by simp [h2f])]
        constructor
        · intro h
          exact absurd h (by simp)
        · rintro ⟨hall, -, -⟩
          have := (hall ds (by simp)).1
          simp [h2f] at this

/-- The custom-pattern loop succeeds iff every pattern compiles. -/
theorem firstBadPattern_none_iff (isValidRegex : String → Bool) (ps : List String) :
    firstBadPattern isValidRegex ps = none ↔ ∀ p ∈ ps, isValidRegex p = true := by
  induction ps with
  | nil => simp [firstBadPattern]
  | cons p rest ih =>
    unfold firstBadPattern
    by_cases hp : isValidRegex p = true
    · rw [if_neg (by simp [hp])]
      rw [ih]
      constructor
      · intro h x hx
        rcases List.mem_cons.mp hx with hx | hx
        · subst hx; exact hp
        · exact h x hx
      · intro h x hx
        exact h x (by simp [hx])
    · have hpf : isValidRegex p = false := by revert hp; cases isValidRegex p <;> simp
      rw [if_pos (by simp [hpf])]
      constructor
      · intro h
        exact absurd h (by simp)
      · intro h
        have := h p (by simp)
        simp [hpf] at this

/-- The per-downstream custom-pattern loop succeeds iff every present
override's patterns all compile. -/
theorem validateDSPatterns_none_iff (isValidRegex : String → Bool)
    (l : List DownstreamConfig) :
    validateDSPatterns isValidRegex l = none ↔
      ∀ ds ∈ l, ∀ s, ds.sanitization = some s →
        ∀ p ∈ s.customInjectionPatterns, isValidRegex p = true := by
  induction l with
  | nil => simp [validateDSPatterns]
  | cons ds rest ih =>
    cases hs : ds.sanitization with
    | none =>
      have hstep : validateDSPatterns isValidRegex (ds :: rest) =
          validateDSPatterns isValidRegex rest := by
        conv_lhs => rw [validateDSPatterns]
        rw [hs]
      rw [hstep, ih]
      constructor
      · intro h x hx s2 hs2
        rcases List.mem_cons.mp hx with hx | hx
        · subst hx
          rw [hs] at hs2
          exact absurd hs2 (by simp)
        · exact h x hx s2 hs2
      · intro h x hx
        exact h x (by simp [hx])
    | some s2 =>
      cases hfb : firstBadPattern isValidRegex s2.customInjectionPatterns with
      | some e =>
        have hstep : validateDSPatterns isValidRegex (ds :: rest) = some e := by
          conv_lhs => rw [validateDSPatterns]
          rw [hs]
          show (match firstBadPattern isValidRegex s2.customInjectionPatterns with
            | some e => some e
            | none => validateDSPatterns isValidRegex rest) = some e
          rw [hfb]
        rw [hstep]
        constructor
        · intro h
          exact absurd h (by simp)
        · intro h
          have hall := h ds (by simp) s2 hs
          have hnone := (firstBadPattern_none_iff isValidRegex
            s2.customInjectionPatterns).mpr hall
          rw [hfb] at hnone
          exact absurd hnone (by simp)
      | none =>
        have hstep : validateDSPatterns isValidRegex (ds :: rest) =
            validateDSPatterns isValidRegex rest := by
          conv_lhs => rw [validateDSPatterns]
          rw [hs]
          show (match firstBadPattern isValidRegex s2.customInjectionPatterns with
            | some e => some e
            | none => validateDSPatterns isValidRegex rest) =
            validateDSPatterns isValidRegex rest
          rw [hfb]
        rw [hstep, ih]
        constructor
        · intro h x hx s3 hs3
          rcases List.mem_cons.mp hx with hx | hx
          · subst hx
            rw [hs] at hs3
            have heq : s2 = s3 := Option.some.inj hs3
            subst heq
            exact (firstBadPattern_none_iff isValidRegex s2.customInjectionPatterns).mp hfb
          · exact h x hx s3 hs3
        · intro h x hx
          exact h x (by simp [hx])

/-- `validate` succeeds exactly when all the checks of config.go
hold. -/
theorem validate_none_iff (isValidRegex : String → Bool) (cfg : Config) :
    validate isValidRegex cfg = none ↔
      ((cfg.upstream.transport = "stdio" ∨ cfg.upstream.transport = "http") ∧
        cfg.downstream ≠ [] ∧
        (∀ ds ∈ cfg.downstream, validName ds.name = true ∧
          hasDoubleUnder ds.name.data = false ∧
          (ds.transport = "stdio" ∨ ds.transport = "http") ∧
          (ds.transport = "stdio" → ds.command ≠ []) ∧
          (ds.transport = "http" → ds.url ≠ "")) ∧
        (cfg.downstream.map DownstreamConfig.name).Nodup ∧
        (∀ p ∈ cfg.sanitization.customInjectionPatterns, isValidRegex p = true) ∧
        (∀ ds ∈ cfg.downstream, ∀ s, ds.sanitization = some s →
          ∀ p ∈ s.customInjectionPatterns, isValidRegex p = true)) := by
  unfold validate
  by_cases hu : cfg.upstream.transport = "stdio" ∨ cfg.upstream.transport = "http"
  · rw [if_neg (by simp; tauto)]
    by_cases he : cfg.downstream.isEmpty
    · rw [if_pos he]
      constructor
      · intro h
        exact absurd h (by simp)
      · rintro ⟨-, hne, -⟩
        exact absurd (by simpa using he) hne
    · rw [if_neg he]
      cases hvd : validateDownstreams [] cfg.downstream with
      | some e =>
        constructor
        · intro h
          exact absurd h (by simp)
        · rintro ⟨-, -, hall, hnodup, -, -⟩
          have := (validateDownstreams_none_iff cfg.downstream []).mpr
            ⟨hall, hnodup, by simp⟩
          rw [hvd] at this
          exact absurd this (by simp)
      | none =>
        cases hfb : firstBadPattern isValidRegex
            cfg.sanitization.customInjectionPatterns with
        | some e =>
          constructor
          · intro h
            exact absurd h (by simp)
          · rintro ⟨-, -, -, -, hglob, -⟩
            have := (firstBadPattern_none_iff isValidRegex
              cfg.sanitization.customInjectionPatterns).mpr hglob
            rw [hfb] at this
            exact absurd this (by simp)
        | none =>
          rw [validateDSPatterns_none_iff]
          have hds := (validateDownstreams_none_iff cfg.downstream []).mp hvd
          constructor
          · intro h
            exact ⟨hu, by simpa using he, hds.1, hds.2.1,
              (firstBadPattern_none_iff isValidRegex
                cfg.sanitization.customInjectionPatterns).mp hfb, h⟩
          · rintro ⟨-, -, -, -, -, h⟩
            exact h
  · rw [if_pos (by simp at hu ⊢; tauto)]
    constructor
    · intro h
      exact absurd h (by simp)
    · rintro ⟨hup, -⟩
      exact absurd hup hu

/-- C9: after the file has been read and parsed (I/O failures are
outside the model), `Load` returns an error if and only if — evaluated
on the configuration after defaulting, which is what `Load` validates
(an absent upstream transport defaults to "stdio") — the downstream
list is empty, a name fails the pattern `[A-Za-z0-9][A-Za-z0-9_-]*`,
a name contains the reserved "__", two downstreams share a name, a
transport (upstream or downstream) is neither "stdio" nor "http", a
stdio downstream lacks a command, an http downstream lacks a url, or a
custom injection pattern (global or per-downstream) fails to compile. -/
theorem load_error_iff (isValidRegex : String → Bool) (cfg : Config) :
    (∃ e, Load isValidRegex cfg = Except.error e) ↔
      (¬((applyDefaults cfg).upstream.transport = "stdio" ∨
          (applyDefaults cfg).upstream.transport = "http") ∨
        (applyDefaults cfg).downstream = [] ∨
        (∃ ds ∈ (applyDefaults cfg).downstream, validName ds.name = false) ∨
        (∃ ds ∈ (applyDefaults cfg).downstream, hasDoubleUnder ds.name.data = true) ∨
        ¬((applyDefaults cfg).downstream.map DownstreamConfig.name).Nodup ∨
        (∃ ds ∈ (applyDefaults cfg).downstream,
          ¬(ds.transport = "stdio" ∨ ds.transport = "http")) ∨
        (∃ ds ∈ (applyDefaults cfg).downstream,
          ds.transport = "stdio" ∧ ds.command = []) ∨
        (∃ ds ∈ (applyDefaults cfg).downstream, ds.transport = "http" ∧ ds.url = "") ∨
        (∃ p ∈ (applyDefaults cfg).sanitization.customInjectionPatterns,
          isValidRegex p = false) ∨
        (∃ ds ∈ (applyDefaults cfg).downstream, ∃ s, ds.sanitization = some s ∧
          ∃ p ∈ s.customInjectionPatterns, isValidRegex p = false)) := by
  have hiff := validate_none_iff isValidRegex (applyDefaults cfg)
  constructor
  · rintro ⟨e, he⟩
    by_contra hD
    push_neg at hD
    obtain ⟨hup, hne, hvn, hdd, hnodup, htr, hcmd, hurl, hglob, hds⟩ := hD
    have hS : validate isValidRegex (applyDefaults cfg) = none := by
      apply hiff.mpr
      refine ⟨by tauto, hne, ?_, hnodup, ?_, ?_⟩
      · intro ds hmem
        refine ⟨?_, ?_, ?_, ?_, ?_⟩
        · have := hvn ds hmem
          revert this
          cases validName ds.name <;> simp
        · have := hdd ds hmem
          revert this
          cases hasDoubleUnder ds.name.data <;> simp
        · have := htr ds hmem
          tauto
        · exact hcmd ds hmem
        · exact hurl ds hmem
      · intro p hp
        have := hglob p hp
        revert this
        cases isValidRegex p <;> simp
      · intro ds hmem s2 hs p hp
        have := hds ds hmem s2 hs p hp
        revert this
        cases isValidRegex p <;> simp
    unfold Load at he
    rw [hS] at he
    exact absurd he (by simp)
  · intro hD
    cases hv : validate isValidRegex (applyDefaults cfg) with
    | some e =>
      refine ⟨"validating config: " ++ e, ?_⟩
      unfold Load
      rw [hv]
    | none =>
      exfalso
      obtain ⟨hup, hne, hall, hnodup, hglob, hds⟩ := hiff.mp hv
      rcases hD with h | h | h | h | h | h | h | h | h | h
      · exact h hup
      · exact hne h
      · obtain ⟨ds, hmem, hval⟩ := h
        have := (hall ds hmem).1
        rw [hval] at this
        exact absurd this (by simp)
      · obtain ⟨ds, hmem, hval⟩ := h
        have := (hall ds hmem).2.1
        rw [hval] at this
        exact absurd this (by simp)
      · exact h hnodup
      · obtain ⟨ds, hmem, hval⟩ := h
        exact hval (hall ds hmem).2.2.1
      · obtain ⟨ds, hmem, hs, hc⟩ := h
        exact (hall ds hmem).2.2.2.1 hs hc
      · obtain ⟨ds, hmem, hs, hu2⟩ := h
        exact (hall ds hmem).2.2.2.2 hs hu2

      · obtain ⟨p, hp, hval⟩ := h
        have := hglob p hp
        rw [hval] at this
        exact absurd this (by simp)
      · obtain ⟨ds, hmem, s2, hs, p, hp, hval⟩ := h
        have := hds ds hmem s2 hs p hp
        rw [hval] at this
        exact absurd this (by simp)
